import Mathlib

/-!
Verification development for the Perth audio player repository.

The repository has two cores:
  * `player` (src/unnamed/part_001, part_000): a playback session (`Player`)
    owning at most one decoded stream, wrapped in a pause-control stage
    (`beep.Ctrl`) and a volume stage (`effects.Volume`), driven through an
    external speaker device.
  * `playlist` (src/playlist/scanner.go, track.go): a catalog scanner that
    reconciles a directory tree against a persisted JSON cache using full
    content hashes, plus a `Track` entity with lazily loaded metadata.

External collaborators (decoder `Open`, speaker `Init/Play/Clear`, the tag
reader, the filesystem, md5) are modelled as oracles: structures of functions
whose results the Go code consumes.  Go pointers that can be nil are modelled
as `Option`; a nil-pointer dereference (a Go runtime panic) is modelled by the
whole operation returning `none`.  Machine integers (int64 sizes, times,
sample counts) are modelled as `Int`: none of the quantities involved
approaches overflow in the code paths under study.
-/

namespace Perth

/-! ### Association-list model of Go's map[string]string -/

def mapGet (m : List (String × String)) (k : String) : Option String :=
  (m.find? (fun kv => kv.1 == k)).map (fun kv => kv.2)

def mapDelete (m : List (String × String)) (k : String) : List (String × String) :=
  m.filter (fun kv => !(kv.1 == k))

def mapInsert (m : List (String × String)) (k v : String) : List (String × String) :=
  (k, v) :: mapDelete m k

/-! ### Path helpers (filepath.Base, filepath.Ext, filepath.Join,
strings.ToLower) -/

/-- Split a character list at every occurrence of `sep` (the splitter behind
the path helpers; structurally recursive so that concrete instances
evaluate). -/
def splitChar (sep : Char) : List Char → List (List Char)
  | [] => [[]]
  | c :: cs =>
    match splitChar sep cs with
    | [] => [[]]
    | g :: gs => if c = sep then [] :: g :: gs else (c :: g) :: gs

/-- The `strings.ToLower` for the ASCII extension/format tags compared by the
code. -/
def strToLower (s : String) : String := String.mk (s.data.map Char.toLower)

/-- The `filepath.Join(dir, name)` for the clean relative paths used by the
scanner (no trailing separators occur in the code paths modelled). -/
def pathJoin (dir name : String) : String := dir ++ "/" ++ name

/-- The `filepath.Base`: the last path component. -/
def pathBase (p : String) : String :=
  String.mk ((splitChar '/' p.data).getLastD p.data)

/-- The `filepath.Ext`: the suffix of the base name starting at its final dot,
empty when the base name has no dot. -/
def pathExt (p : String) : String :=
  let parts := splitChar '.' (pathBase p).data
  if parts.length ≤ 1 then ("") else String.mk ('.' :: parts.getLastD [])

/-! ### Track entity (src/playlist/track.go) -/

/-- The `Metadata` record of track.go.  `loaded` is the loaded-flag. -/
structure Metadata where
  title : String
  artist : String
  album : String
  genre : String
  year : Int
  trackNumber : Int
  loaded : Bool
  deriving Repr, DecidableEq

/-- The `Metadata{Loaded: false}` placeholder used by `NewTrack` and
`loadMetadata`. -/
def emptyMetadata : Metadata :=
  { title := "", artist := "", album := "", genre := "", year := 0,
    trackNumber := 0, loaded := false }

/-- The `track.go`'s `generateID`: a 32-bit rolling hash over the path's runes;
Go computes `hash = ((hash << 5) - hash + int(char)) & 0xffffffff`, i.e.
`hash*31 + char` reduced mod 2^32 (values stay nonnegative).  The Go code
formats the number as 8 hex digits; the number itself carries the identity. -/
def generateID (path : String) : Nat :=
  path.data.foldl (fun h c => (h * 31 + c.toNat) % (2 ^ 32)) 0

/-- The `Track` of track.go.  The unexported `metadata *Metadata` pointer is
`Option Metadata` here: `none` models a nil pointer.  The field carries the
json:"-" tag (and is unexported), so it is never serialized: tracks decoded
from the JSON cache always come back with `metadata = none`.  `duration` and
`modified` are int64 nanosecond counts / a timestamp, modelled as `Int`. -/
structure Track where
  id : Nat
  path : String
  filename : String
  duration : Int
  format : String
  size : Int
  modified : Int
  metadata : Option Metadata
  deriving Repr, DecidableEq

/-- The `NewTrack` of track.go: derives id, basename, lowercased extension, and a
fresh unloaded metadata record. -/
def NewTrack (path : String) (duration size modified : Int) : Track :=
  { id := generateID path
    path := path
    filename := pathBase path
    duration := duration
    format := strToLower (pathExt path)
    size := size
    modified := modified
    metadata := some emptyMetadata }

/-! ### Playback session (src/unnamed/part_001) -/

/-- The `beep.Format`: sample rate (samples per second), channel count,
bytes-per-sample precision. -/
structure AFormat where
  sampleRate : Int
  numChannels : Int
  precision : Int
  deriving Repr, DecidableEq

/-- An external decoded stream (`beep.StreamSeekCloser`), as the session
observes it: an identity, the error its `Seek(samples)` returns for a given
sample offset, and the error its `Close()` returns.  Sample data itself is
consumed only by the external speaker and is not modelled. -/
structure Stream where
  id : Nat
  seekRes : Int → Option String
  closeRes : Option String

/-- The `beep.Ctrl`: the pause-control stage. -/
structure Ctrl where
  paused : Bool
  deriving Repr, DecidableEq

/-- The `effects.Volume`: the volume stage.  `base` and `volume` are float64 in
Go; they are modelled as real numbers (the code sets them only through exact
arithmetic on `math.Log`). -/
structure VolumeS where
  base : ℝ
  volume : ℝ
  silent : Bool

/-- The `Player` struct.  `stream`, `ctrl`, `vol` are nilable pointers in Go.
The `endedCh chan struct{}` completion signal is modelled by a generation
counter (`Load` allocates a fresh channel: generation + 1) and a closed flag.
`format` keeps whatever was last assigned (zero value initially). -/
structure Player where
  stream : Option Stream
  format : AFormat
  ctrl : Option Ctrl
  vol : Option VolumeS
  playing : Bool
  endedGen : Nat
  endedClosed : Bool
  inited : Bool

/-- The `player.New()`: no track loaded, fresh unsignaled channel, speaker not
initialized. -/
def newPlayer : Player :=
  { stream := none
    format := { sampleRate := 0, numChannels := 0, precision := 0 }
    ctrl := none
    vol := none
    playing := false
    endedGen := 0
    endedClosed := false
    inited := false }

/-- The `errors.New("no track loaded")` message used by Play/Toggle/Seek. -/
def noTrackLoaded : String := "no track loaded"

/-- The `beep.SampleRate.N(d)`: how many samples span duration `d` (nanoseconds):
`int(d * time.Duration(sr) / time.Second)`, Go's truncating int64 division. -/
def sampleRateN (sr d : Int) : Int := Int.tdiv (d * sr) 1000000000

/-- Oracle for the external collaborators `Load` consults: the decoder
gateway `Open(path)` and the speaker's `Init(sampleRate, bufferSize)`
(`none` = Init succeeded, `some e` = it failed with error `e`). -/
structure AudioEnv where
  openF : String → Except String (Stream × AFormat)
  speakerInitRes : Int → Option String

/-- Observable side effects of one `Load` call on the external stream and
speaker collaborators: which old stream was closed, whether the freshly
opened stream was closed again (speaker-init failure path), and the
`speaker.Init` call with its `(sampleRate, bufferSize)` arguments if one was
made. -/
structure LoadEvents where
  closedOld : Option Nat
  closedNew : Option Nat
  speakerInitCall : Option (Int × Int)
  deriving Repr, DecidableEq

def noLoadEvents : LoadEvents :=
  { closedOld := none, closedNew := none, speakerInitCall := none }

/-- The `Player.Load`, translated clause by clause from part_001 lines 34-75:
close the old stream; open; re-Init the speaker only when uninitialized or
the sample rate differs (buffer `format.SampleRate.N(time.Second/10)`, i.e.
100ms); wrap in a paused `Ctrl` and a `Volume{Base: 2, Volume: 0}`; install
the stream; allocate a fresh ended-channel; leave `playing = false`. -/
def load (env : AudioEnv) (p : Player) (path : String) :
    Player × LoadEvents × Option String :=
  let closedOld := p.stream.map (fun s => s.id)
  let p1 : Player := { p with stream := none }
  let ev1 : LoadEvents := { noLoadEvents with closedOld := closedOld }
  match env.openF path with
  | .error e => (p1, ev1, some e)
  | .ok (s, format) =>
    if p1.inited = false ∨ p1.format.sampleRate ≠ format.sampleRate then
      match env.speakerInitRes format.sampleRate with
      | some e =>
        (p1,
         { ev1 with
            closedNew := some s.id
            speakerInitCall :=
              some (format.sampleRate, sampleRateN format.sampleRate (1000000000 / 10)) },
         some ("speaker init: " ++ e))
      | none =>
        ({ p1 with
            inited := true
            format := format
            ctrl := some { paused := true }
            vol := some { base := 2, volume := 0, silent := false }
            stream := some s
            endedGen := p.endedGen + 1
            endedClosed := false
            playing := false },
         { ev1 with
            speakerInitCall :=
              some (format.sampleRate, sampleRateN format.sampleRate (1000000000 / 10)) },
         none)
    else
      ({ p1 with
          format := format
          ctrl := some { paused := true }
          vol := some { base := 2, volume := 0, silent := false }
          stream := some s
          endedGen := p.endedGen + 1
          endedClosed := false
          playing := false },
       ev1, none)

/-- The `Player.Play` (part_001 lines 78-109): error when no stream; no-op when
already playing; otherwise unpause the ctrl stage, mark playing, and submit
the stream to the speaker.  The end-of-stream callback runs later on the
device thread and is outside this sequential model. -/
def play (p : Player) : Player × Option String :=
  match p.stream with
  | none => (p, some noTrackLoaded)
  | some _ =>
    if p.playing then (p, none)
    else
      ({ p with
          ctrl := p.ctrl.map (fun c => { c with paused := false })
          playing := true },
       none)

/-- The `Player.Pause` (lines 112-121): guarded by `ctrl != nil` (not by the
stream!); sets the pause flag and clears `playing`. -/
def pause (p : Player) : Player :=
  match p.ctrl with
  | none => p
  | some c => { p with ctrl := some { c with paused := true }, playing := false }

/-- The `Player.Toggle` (lines 124-135): guarded by `ctrl != nil` (not by the
stream!); flips the pause flag and sets `playing` to the new unpaused
state. -/
def toggle (p : Player) : Player × Option String :=
  match p.ctrl with
  | none => (p, some noTrackLoaded)
  | some c =>
    ({ p with ctrl := some { c with paused := !c.paused }, playing := c.paused },
     none)

/-- The `Player.Stop` (lines 138-152): no-op when ctrl or stream is nil;
otherwise pauses, seeks the stream to 0 (discarding the error), clears
`playing`, and flushes the speaker. -/
def stop (p : Player) : Player :=
  if p.ctrl.isNone ∨ p.stream.isNone then p
  else
    { p with
        ctrl := p.ctrl.map (fun c => { c with paused := true })
        playing := false }

/-- The `Player.Seek` (lines 154-166): error when no stream; otherwise converts
the duration to samples with the loaded format's sample rate and returns the
stream's own seek result unchanged. -/
def seek (p : Player) (pos : Int) : Player × Option String :=
  match p.stream with
  | none => (p, some noTrackLoaded)
  | some st => (p, st.seekRes (sampleRateN p.format.sampleRate pos))

/-- The `Player.SetVolume` (lines 203-219): nothing when no volume stage;
`linear <= 0` marks silent with zero gain; positive values set
`Volume = Log(linear) / Log(Base)`. -/
noncomputable def setVolume (p : Player) (linear : ℝ) : Player :=
  match p.vol with
  | none => p
  | some v =>
    if linear ≤ 0 then
      { p with vol := some { v with silent := true, volume := 0 } }
    else
      { p with
          vol := some { v with
            silent := false
            volume := Real.log linear / Real.log v.base } }

/-- The `Player.Close` (lines 229-238): releases the stream if any, returning the
stream's close error; idempotent. -/
def close (p : Player) : Player × Option String :=
  match p.stream with
  | none => (p, none)
  | some st => ({ p with stream := none }, st.closeRes)

/-! ### Playback-session fixtures used by witnesses and counterexamples -/

/-- A concrete decoded stream whose seek fails beyond sample 400. -/
def sW : Stream :=
  { id := 7
    seekRes := fun n => if 400 < n then some ("seek out of range") else none
    closeRes := none }

/-- A concrete decoder/speaker oracle: one known file, speaker Init always
succeeds. -/
def envW : AudioEnv :=
  { openF := fun path =>
      if path = "t.mp3" then .ok (sW, { sampleRate := 44100, numChannels := 2, precision := 2 })
      else .error ("unsupported audio format")
    speakerInitRes := fun _ => none }

/-- The player state right after a successful `Load` of `t.mp3` on a fresh
player. -/
def pW1 : Player :=
  { stream := some sW
    format := { sampleRate := 44100, numChannels := 2, precision := 2 }
    ctrl := some { paused := true }
    vol := some { base := 2, volume := 0, silent := false }
    playing := false
    endedGen := 1
    endedClosed := false
    inited := true }

/-- The observable `Load` side effects for that first load: no old stream to
close, one speaker Init at 44100Hz with a 100ms (4410-sample) buffer. -/
def evW : LoadEvents :=
  { closedOld := none
    closedNew := none
    speakerInitCall := some (44100, 4410) }

/-- A session that loaded `t.mp3`, started playing, then called `Close()`:
the stream is released but the ctrl stage pointer survives `Close`. -/
def pCE : Player := (close (play pW1).1).1

/-- A player with only a volume stage installed, for the SetVolume witness. -/
def vW : VolumeS := { base := 2, volume := 5, silent := true }

def pV : Player := { newPlayer with vol := some vW }

/-! ### Lazy metadata loading (src/playlist/track.go lines 57-191) -/

/-- The tag record an external `tag.ReadFrom` call produces. -/
structure TagData where
  title : String
  artist : String
  album : String
  genre : String
  year : Int
  trackNum : Int
  deriving Repr, DecidableEq

/-- Oracle for the collaborators `extractMetadata` consults: whether
`os.Open` succeeds for a path, and what `tag.ReadFrom` returns (`none` = the
tag library failed). -/
structure MetaEnv where
  openOk : String → Bool
  readTag : String → Option TagData

/-- The `strings.EqualFold` comparison used for the format gate (the format
tags compared are ASCII). -/
def eqFold (a b : String) : Bool := strToLower a == strToLower b

/-- The `extractMetadata` of track.go (lines 150-191): gate on the `.mp3`
format, open the file, read tags, and copy each non-zero tag field over the
current metadata record `m`.  Errors happen before any field is written. -/
def extractMetadata (env : MetaEnv) (t : Track) (m : Metadata) :
    Except String Metadata :=
  if eqFold t.format (".mp3") = false then
    .error ("metadata extraction not supported for format: " ++ t.format)
  else if env.openOk t.path = false then
    .error ("failed to open file for metadata")
  else
    match env.readTag t.path with
    | none => .error ("failed to read metadata")
    | some td =>
      .ok { m with
        title := if td.title ≠ "" then td.title else m.title
        artist := if td.artist ≠ "" then td.artist else m.artist
        album := if td.album ≠ "" then td.album else m.album
        genre := if td.genre ≠ "" then td.genre else m.genre
        year := if td.year ≠ 0 then td.year else m.year
        trackNumber := if td.trackNum ≠ 0 then td.trackNum else m.trackNumber }

/-- One extraction attempt on metadata record `m0`: on failure the fields are
left as they were (the error is only logged); afterwards the loaded-flag is
unconditionally set. -/
def attemptLoad (env : MetaEnv) (t : Track) (m0 : Metadata) : Track :=
  let m1 := match extractMetadata env t m0 with
    | .error _ => m0
    | .ok m1 => m1
  { t with metadata := some { m1 with loaded := true } }

/-- The `loadMetadata` of track.go (lines 119-148): return immediately when
already loaded; initialize a nil metadata pointer; attempt extraction once;
mark loaded regardless of the outcome.  (The RWMutex double-check discipline
collapses in this sequential model.) -/
def loadMetadata (env : MetaEnv) (t : Track) : Track :=
  match t.metadata with
  | some m => if m.loaded then t else attemptLoad env t m
  | none => attemptLoad env t emptyMetadata

/-- The `Track.Artist` accessor: lazy-load, then read the field (empty when
the metadata pointer is nil).  Returns the value together with the mutated
track. -/
def artistA (env : MetaEnv) (t : Track) : String × Track :=
  let t1 := loadMetadata env t
  ((t1.metadata.map (fun m => m.artist)).getD (""), t1)

/-- The `Track.Year` accessor, same shape as `Artist/Album/Genre`. -/
def yearA (env : MetaEnv) (t : Track) : Int × Track :=
  let t1 := loadMetadata env t
  ((t1.metadata.map (fun m => m.year)).getD 0, t1)

/-- The `Track.HasMetadata` helper. -/
def hasMetadata (t : Track) : Bool :=
  match t.metadata with
  | some m => m.loaded
  | none => false

/-! ### Catalog scanner (src/playlist/scanner.go) -/

/-- One `os.DirEntry` as the scanner consumes it. -/
structure DirEntry where
  name : String
  isDir : Bool
  deriving Repr, DecidableEq

/-- The `os.Stat` fields the scanner reads. -/
structure FileInfo where
  size : Int
  modTime : Int
  deriving Repr, DecidableEq

/-- Filesystem oracle.  `readDir d` is `os.ReadDir` (`none` = error);
`stat p` is `os.Stat` (`none` = the file does not exist, the only stat
failure the code distinguishes); `hash p` is `calculateFileHash p`, which in
Go returns the md5 hex digest or `""` when the file cannot be opened or
read; `duration p` is `getAudioDuration` (`none` = the decoder failed). -/
structure FS where
  readDir : String → Option (List DirEntry)
  stat : String → Option FileInfo
  hash : String → String
  duration : String → Option Int

/-- The `Scanner` struct of scanner.go. -/
structure Scanner where
  cachePath : String
  tracks : List Track
  lastScan : Int
  fileHashes : List (String × String)
  scanPaths : List String
  extensions : List String
  deriving Repr, DecidableEq

/-- The `ScanResult` struct of scanner.go. -/
structure ScanResult where
  tracks : List Track
  totalFiles : Nat
  newTracks : Nat
  updatedTracks : Nat
  removedTracks : Nat
  errors : List String
  scanTime : Int
  deriving Repr, DecidableEq

def emptyScanResult (now : Int) : ScanResult :=
  { tracks := [], totalFiles := 0, newTracks := 0, updatedTracks := 0,
    removedTracks := 0, errors := [], scanTime := now }

/-- The persisted cache document: `tracks`, `file_hashes`, `last_scan`.
Because `Track.metadata` is unexported (and tagged json:"-"), serialization
drops it and deserialization leaves the pointer nil. -/
structure CacheFile where
  tracks : List Track
  fileHashes : List (String × String)
  lastScan : Int
  deriving Repr, DecidableEq

/-- The state of the cache file on disk: absent, unparsable, or a document. -/
inductive CacheState where
  | missing
  | corrupt
  | ok (c : CacheFile)
  deriving Repr, DecidableEq

/-- The `NewScanner` constructor: default scan path `assets`, supported
extensions mp3/wav/flac, empty catalog. -/
def newScanner (scanPaths : List String) (cachePath : String) : Scanner :=
  { cachePath := cachePath
    tracks := []
    lastScan := 0
    fileHashes := []
    scanPaths := if scanPaths.isEmpty then ["assets"] else scanPaths
    extensions := [".mp3", ".wav", ".flac"] }

/-- The `hasFileChanged` of scanner.go (lines 277-287): recompute the content
hash and compare with the recorded one; unrecorded paths count as changed.
An unreadable file hashes to `""`, which differs from any real digest. -/
def hasFileChanged (fs : FS) (s : Scanner) (filePath : String) : Bool :=
  let currentHash := fs.hash filePath
  match mapGet s.fileHashes filePath with
  | none => true
  | some lastHash => currentHash != lastHash

/-- The `findTrackByPath` of scanner.go (lines 305-313): first track with the
given path. -/
def findTrackByPath (s : Scanner) (filePath : String) : Option Track :=
  s.tracks.find? (fun t => t.path == filePath)

/-- The `createTrack` of scanner.go (lines 204-225): stat, measure duration,
build the track, record the content hash. -/
def createTrack (fs : FS) (s : Scanner) (filePath : String) :
    Except String (Track × Scanner) :=
  match fs.stat filePath with
  | none => .error ("failed to stat file")
  | some info =>
    match fs.duration filePath with
    | none => .error ("failed to get duration")
    | some dur =>
      .ok (NewTrack filePath dur info.size info.modTime,
        { s with fileHashes := mapInsert s.fileHashes filePath (fs.hash filePath) })

/-- Replace the first track with the given path (Go mutates the pointer that
`findTrackByPath` returned, which is the first match). -/
def replaceFirstTrack : List Track → String → Track → List Track
  | [], _, _ => []
  | t :: ts, p, nt => if t.path == p then nt :: ts else t :: replaceFirstTrack ts p nt

/-- The `updateTrack` of scanner.go (lines 227-253): stat, re-measure
duration, overwrite duration/size/modified, reset the metadata loaded-flag,
re-record the hash.  The flag reset dereferences `track.metadata`; when the
track came back from the JSON cache that pointer is nil and the Go program
panics — modelled as the `none` outcome. -/
def updateTrack (fs : FS) (s : Scanner) (t : Track) (filePath : String) :
    Option (Except String Scanner) :=
  match fs.stat filePath with
  | none => some (.error ("failed to stat file"))
  | some info =>
    match fs.duration filePath with
    | none => some (.error ("failed to get duration"))
    | some dur =>
      match t.metadata with
      | none => none
      | some m =>
        some (.ok { s with
          tracks := replaceFirstTrack s.tracks filePath
            { t with
                duration := dur
                size := info.size
                modified := info.modTime
                metadata := some { m with loaded := false } }
          fileHashes := mapInsert s.fileHashes filePath (fs.hash filePath) })

/-- The `processAudioFile` of scanner.go (lines 172-202): skip an unchanged
known file; update a changed known file (counting it); create a track for an
unknown file (counting it).  `.error` is the error the Go function returns
to `scanDirectory`; `none` propagates a panic. -/
def processAudioFile (fs : FS) (s : Scanner) (dirPath : String) (entry : DirEntry)
    (r : ScanResult) : Option (Except String (Scanner × ScanResult)) :=
  match findTrackByPath s (pathJoin dirPath entry.name) with
  | some t =>
    if hasFileChanged fs s (pathJoin dirPath entry.name) = false then some (.ok (s, r))
    else
      match updateTrack fs s t (pathJoin dirPath entry.name) with
      | none => none
      | some (.error e) => some (.error ("failed to update track: " ++ e))
      | some (.ok s1) =>
        some (.ok (s1, { r with updatedTracks := r.updatedTracks + 1 }))
  | none =>
    match createTrack fs s (pathJoin dirPath entry.name) with
    | .error e => some (.error ("failed to create track: " ++ e))
    | .ok (t, s1) =>
      some (.ok ({ s1 with tracks := s1.tracks ++ [t] },
        { r with newTracks := r.newTracks + 1 }))

/-- The entry loop of `scanDirectory` (lines 147-167), parameterized by the
recursive call `sub` used for subdirectories: recurse into directories
(collecting, not propagating, their errors), filter by extension, process
audio files (collecting their errors).  `none` propagates a panic (or
exhausted recursion fuel). -/
def scanEntriesWith
    (sub : Scanner → ScanResult → String → Option (Except String (Scanner × ScanResult)))
    (fs : FS) (dirPath : String) :
    List DirEntry → Scanner → ScanResult → Option (Scanner × ScanResult)
  | [], s, r => some (s, r)
  | e :: es, s, r =>
    if e.isDir then
      match sub s r (pathJoin dirPath e.name) with
      | none => none
      | some (.error msg) =>
        scanEntriesWith sub fs dirPath es s
          { r with errors := r.errors ++
              ["Failed to scan subdirectory " ++ pathJoin dirPath e.name ++ ": " ++ msg] }
      | some (.ok (s1, r1)) => scanEntriesWith sub fs dirPath es s1 r1
    else
      if s.extensions.contains (strToLower (pathExt e.name)) = false then
        scanEntriesWith sub fs dirPath es s r
      else
        match processAudioFile fs s dirPath e r with
        | none => none
        | some (.error msg) =>
          scanEntriesWith sub fs dirPath es s
            { r with errors := r.errors ++
                ["Failed to process " ++ e.name ++ ": " ++ msg] }
        | some (.ok (s1, r1)) => scanEntriesWith sub fs dirPath es s1 r1

/-- The `scanDirectory` of scanner.go (lines 140-170): read the directory
(an unreadable directory is the one error the function itself returns) and
run the entry loop, recursing with one unit of fuel less.  Go's recursion is
bounded by the (finite) directory depth; `fuel` makes that bound explicit,
and exhausting it is modelled as non-completion (`none`), which a run on a
real finite tree never hits. -/
def scanDirectory (fs : FS) : Nat → Scanner → ScanResult → String →
    Option (Except String (Scanner × ScanResult))
  | 0, _, _, _ => none
  | fuel + 1, s, r, dirPath =>
    match fs.readDir dirPath with
    | none => some (.error ("failed to read directory " ++ dirPath))
    | some entries =>
      match scanEntriesWith (fun s1 r1 d1 => scanDirectory fs fuel s1 r1 d1)
          fs dirPath entries s r with
      | none => none
      | some (s1, r1) => some (.ok (s1, r1))

/-- The loop body of `removeDeletedTracks` (lines 315-330): drop tracks whose
file no longer exists, deleting their hash entries and counting them. -/
def removeDeletedGo (fs : FS) :
    List Track → List (String × String) → Nat →
      List Track × List (String × String) × Nat
  | [], hashes, removed => ([], hashes, removed)
  | t :: ts, hashes, removed =>
    if (fs.stat t.path).isNone then
      removeDeletedGo fs ts (mapDelete hashes t.path) (removed + 1)
    else
      let rest := removeDeletedGo fs ts hashes removed
      (t :: rest.1, rest.2)

/-- The `removeDeletedTracks` of scanner.go. -/
def removeDeletedTracks (fs : FS) (s : Scanner) (r : ScanResult) :
    Scanner × ScanResult :=
  let out := removeDeletedGo fs s.tracks s.fileHashes 0
  ({ s with tracks := out.1, fileHashes := out.2.1 },
   { r with removedTracks := r.removedTracks + out.2.2 })

/-- Serialization drops the unexported `metadata` field of a track. -/
def stripMetadataT (t : Track) : Track := { t with metadata := none }

/-- The `saveCache` of scanner.go (lines 413-441): persist tracks (minus
their metadata pointers), the hash map, and the timestamp.  The disk write
is assumed to succeed; a failed write would leave the previous cache file
behind and is not modelled. -/
def saveCache (now : Int) (s : Scanner) : CacheState :=
  .ok { tracks := s.tracks.map stripMetadataT
        fileHashes := s.fileHashes
        lastScan := now }

/-- The `loadCache` of scanner.go (lines 386-411): a missing file keeps the
in-memory state silently; a corrupt file keeps the in-memory state and
reports a parse error; a good file replaces tracks, hashes and timestamp. -/
def loadCache (c : CacheState) (s : Scanner) : Scanner × Option String :=
  match c with
  | .missing => (s, none)
  | .corrupt => (s, some ("failed to parse cache"))
  | .ok cf =>
    ({ s with tracks := cf.tracks, fileHashes := cf.fileHashes, lastScan := cf.lastScan },
     none)

/-- The per-root loop of `Scan` (lines 74-78): scan every configured root,
collecting root-level errors. -/
def scanRootsGo (fs : FS) (fuel : Nat) :
    List String → Scanner → ScanResult → Option (Scanner × ScanResult)
  | [], s, r => some (s, r)
  | path :: rest, s, r =>
    match scanDirectory fs fuel s r path with
    | none => none
    | some (.error msg) =>
      scanRootsGo fs fuel rest s
        { r with errors := r.errors ++ ["Failed to scan " ++ path ++ ": " ++ msg] }
    | some (.ok (s1, r1)) => scanRootsGo fs fuel rest s1 r1

/-- The fresh result `Scan` starts from: empty counters, plus the collected
(non-fatal) cache-load error if there was one. -/
def scanInitResult (now : Int) : Option String → ScanResult
  | none => emptyScanResult now
  | some e => { emptyScanResult now with errors := ["Failed to load cache: " ++ e] }

/-- The `Scan` of scanner.go (lines 61-93): load cache (corruption is a
collected error, not fatal), walk every root, evict deleted tracks, persist
the cache, and report the final track list and counters. -/
def scan (fs : FS) (fuel : Nat) (now : Int) (s0 : Scanner) (c0 : CacheState) :
    Option (Scanner × CacheState × ScanResult) :=
  let loaded := loadCache c0 s0
  match scanRootsGo fs fuel loaded.1.scanPaths loaded.1
      (scanInitResult now loaded.2) with
  | none => none
  | some (s2, r2) =>
    let out := removeDeletedTracks fs s2 r2
    some (out.1, saveCache now out.1,
      { out.2 with
          tracks := out.1.tracks
          totalFiles := out.1.tracks.length
          scanTime := now })

/-- The per-entry loop of `scanForNewFiles` (lines 342-360): top-level
entries only — directories are skipped, not entered; quietly create tracks
for unknown audio files (creation errors are silently dropped). -/
def scanNewEntries (fs : FS) (dirPath : String) :
    List DirEntry → Scanner → Nat → Scanner × Nat
  | [], s, n => (s, n)
  | e :: es, s, n =>
    if e.isDir then scanNewEntries fs dirPath es s n
    else if s.extensions.contains (strToLower (pathExt e.name)) = false then
      scanNewEntries fs dirPath es s n
    else
      match findTrackByPath s (pathJoin dirPath e.name) with
      | some _ => scanNewEntries fs dirPath es s n
      | none =>
        match createTrack fs s (pathJoin dirPath e.name) with
        | .error _ => scanNewEntries fs dirPath es s n
        | .ok (t, s1) =>
          scanNewEntries fs dirPath es { s1 with tracks := s1.tracks ++ [t] } (n + 1)

/-- The `scanForNewFiles` of scanner.go (lines 332-364): for every root, read
only the top level (unreadable roots are skipped silently). -/
def scanForNewFiles (fs : FS) :
    List String → Scanner → Nat → Scanner × Nat
  | [], s, n => (s, n)
  | path :: rest, s, n =>
    match fs.readDir path with
    | none => scanForNewFiles fs rest s n
    | some entries =>
      let out := scanNewEntries fs path entries s n
      scanForNewFiles fs rest out.1 out.2

/-- The `IncrementalScan` of scanner.go (lines 95-138): a failed cache load
degrades to a full scan; any changed cached file degrades to a full scan;
otherwise only look for new top-level files, persisting the cache when some
were added. -/
def incrementalScan (fs : FS) (fuel : Nat) (now : Int) (s0 : Scanner)
    (c0 : CacheState) : Option (Scanner × CacheState × ScanResult) :=
  match loadCache c0 s0 with
  | (_, some _) => scan fs fuel now s0 c0
  | (s1, none) =>
    if s1.tracks.any (fun t => hasFileChanged fs s1 t.path) then
      scan fs fuel now s1 c0
    else
      let out := scanForNewFiles fs s1.scanPaths s1 0
      some (out.1,
        if 0 < out.2 then saveCache now out.1 else c0,
        { emptyScanResult now with
            tracks := out.1.tracks
            totalFiles := out.1.tracks.length
            newTracks := out.2 })

/-! ### Traversal skeleton of the walk, used to state and prove the
second-scan theorem.  These mirror `scanDirectory`'s control flow but depend
only on the filesystem, not on the scanner state: which directories are read,
which audio-file paths are processed, and whether the fuel bound suffices. -/

/-- The audio-file paths an entry list contributes, where `wf` gives the
files of a subdirectory. -/
def entryFilesWith (wf : String → List String) (exts : List String)
    (d : String) : List DirEntry → List String
  | [] => []
  | e :: es =>
    (if e.isDir then wf (pathJoin d e.name)
     else if exts.contains (strToLower (pathExt e.name)) then [pathJoin d e.name]
     else []) ++ entryFilesWith wf exts d es

/-- All audio-file paths the walk of one root processes (in order). -/
def walkFiles (fs : FS) (exts : List String) : Nat → String → List String
  | 0, _ => []
  | fuel + 1, d =>
    match fs.readDir d with
    | none => []
    | some entries =>
      entryFilesWith (fun d1 => walkFiles fs exts fuel d1) exts d entries

/-- Whether every subdirectory of an entry list fits in the fuel bound. -/
def entriesOkWith (wo : String → Bool) (d : String) : List DirEntry → Bool
  | [] => true
  | e :: es => (if e.isDir then wo (pathJoin d e.name) else true) && entriesOkWith wo d es

/-- Whether the walk of one root completes within the fuel bound (true also
when the root itself is unreadable: that is an immediate, collected error). -/
def walkOk (fs : FS) : Nat → String → Bool
  | 0, _ => false
  | fuel + 1, d =>
    match fs.readDir d with
    | none => true
    | some entries => entriesOkWith (fun d1 => walkOk fs fuel d1) d entries

/-- The audio-file paths processed across all roots. -/
def rootsFiles (fs : FS) (exts : List String) (fuel : Nat) : List String → List String
  | [] => []
  | root :: rest => walkFiles fs exts fuel root ++ rootsFiles fs exts fuel rest

/-- Processing the file at `p` must fail before mutating anything: its stat
or its duration measurement fails (both `createTrack` and `updateTrack`
error out exactly then). -/
def procFails (fs : FS) (p : String) : Prop :=
  fs.stat p = none ∨ fs.duration p = none

/-- Processing the file at `p` from state `s` is a no-op: either it cannot
be processed at all, or it is cataloged with an unchanged content hash. -/
def NoopP (fs : FS) (s : Scanner) (p : String) : Prop :=
  procFails fs p ∨
    ((findTrackByPath s p).isSome = true ∧ hasFileChanged fs s p = false)

/-! ### Scanner fixtures used by concrete claim theorems -/

/-- A metadata oracle where the tag library always fails. -/
def envM : MetaEnv := { openOk := fun _ => true, readTag := fun _ => none }

/-- A cataloged wav track (metadata extraction is gated to mp3 only). -/
def tWav : Track := NewTrack ("assets/b.wav") 0 0 0

/-- The modification-detection fixture: one root `assets` holding one file
`a.mp3` whose on-disk bytes (hence hash) differ from the recorded hash. -/
def fsM : FS :=
  { readDir := fun d => if d = "assets" then some [{ name := "a.mp3", isDir := false }] else none
    stat := fun p => if p = "assets/a.mp3" then some { size := 12, modTime := 9 } else none
    hash := fun p => if p = "assets/a.mp3" then ("newhash") else ("")
    duration := fun p => if p = "assets/a.mp3" then some 2000 else none }

def sM : Scanner := newScanner ["assets"] (".perth/cache.json")

/-- The track for `assets/a.mp3` as a previous scan cataloged it. -/
def trackM : Track := NewTrack ("assets/a.mp3") 1000 10 5

/-- The cache a previous completed scan left on disk: deserializing it nils
the unexported metadata pointer (`stripMetadataT`). -/
def cM : CacheState :=
  .ok { tracks := [stripMetadataT trackM]
        fileHashes := [("assets/a.mp3", "oldhash")]
        lastScan := 0 }

/-- The same cache as `cM` but with the metadata record still present, as it
would be when the cache file was missing and the track stayed in memory. -/
def cMGood : CacheState :=
  .ok { tracks := [{ trackM with metadata := some { emptyMetadata with loaded := true } }]
        fileHashes := [("assets/a.mp3", "oldhash")]
        lastScan := 0 }

/-- The incremental-scan fixture: root `assets` containing only the
subdirectory `sub`, which holds a new audio file `new.mp3`. -/
def fsT : FS :=
  { readDir := fun d =>
      if d = "assets" then some [{ name := "sub", isDir := true }]
      else if d = "assets/sub" then some [{ name := "new.mp3", isDir := false }]
      else none
    stat := fun p => if p = "assets/sub/new.mp3" then some { size := 4, modTime := 1 } else none
    hash := fun p => if p = "assets/sub/new.mp3" then ("h1") else ("")
    duration := fun p => if p = "assets/sub/new.mp3" then some 500 else none }

def sT : Scanner := newScanner ["assets"] (".perth/cache.json")

/-- An empty but well-formed cache: loads fine, nothing to compare. -/
def cT : CacheState := .ok { tracks := [], fileHashes := [], lastScan := 0 }

/-- The deletion fixture for the C1 witness: the cache knows
`assets/gone.mp3`, the disk no longer has it. -/
def fsD : FS :=
  { readDir := fun d => if d = "assets" then some [] else none
    stat := fun _ => none
    hash := fun _ => ""
    duration := fun _ => none }

def sD : Scanner := newScanner ["assets"] (".perth/cache.json")

def trackD : Track := NewTrack ("assets/gone.mp3") 700 3 2

def cD : CacheState :=
  .ok { tracks := [stripMetadataT trackD]
        fileHashes := [("assets/gone.mp3", "hash0")]
        lastScan := 0 }

/-- The scanner, cache and result the deletion-fixture scan produces. -/
def s1D : Scanner :=
  { cachePath := ".perth/cache.json"
    tracks := []
    lastScan := 0
    fileHashes := []
    scanPaths := ["assets"]
    extensions := [".mp3", ".wav", ".flac"] }

def c1D : CacheState := .ok { tracks := [], fileHashes := [], lastScan := 0 }

def r1D : ScanResult :=
  { tracks := []
    totalFiles := 0
    newTracks := 0
    updatedTracks := 0
    removedTracks := 1
    errors := []
    scanTime := 0 }

theorem mapGet_cons (kv : String × String) (m : List (String × String)) (k : String) :
    mapGet (kv :: m) k = if kv.1 = k then some kv.2 else mapGet m k := by
  by_cases h : kv.1 = k
  · rw [mapGet, List.find?_cons_of_pos _ (by simpa using h), if_pos h]
    rfl
  · rw [mapGet, List.find?_cons_of_neg _ (by simpa using h), if_neg h]
    rfl

theorem mapDelete_cons (kv : String × String) (m : List (String × String)) (k : String) :
    mapDelete (kv :: m) k =
      if kv.1 = k then mapDelete m k else kv :: mapDelete m k := by
  by_cases h : kv.1 = k <;> simp [mapDelete, List.filter_cons, h]

theorem mapGet_insert_self (m : List (String × String)) (k v : String) :
    mapGet (mapInsert m k v) k = some v := by
  rw [mapInsert, mapGet_cons, if_pos rfl]

theorem mapGet_delete_self (m : List (String × String)) (k : String) :
    mapGet (mapDelete m k) k = none := by
  induction m with
  | nil => rfl
  | cons kv tl ih =>
    rw [mapDelete_cons]
    by_cases h : kv.1 = k
    · rw [if_pos h]; exact ih
    · rw [if_neg h, mapGet_cons, if_neg h]; exact ih

theorem mapGet_delete_ne (m : List (String × String)) (k k' : String) (h : k' ≠ k) :
    mapGet (mapDelete m k) k' = mapGet m k' := by
  induction m with
  | nil => rfl
  | cons kv tl ih =>
    rw [mapDelete_cons]
    by_cases hk : kv.1 = k
    · have hk' : ¬ kv.1 = k' := fun e => h (e.symm.trans hk)
      rw [if_pos hk, mapGet_cons (m := tl), if_neg hk']
      exact ih
    · rw [if_neg hk, mapGet_cons, mapGet_cons (m := tl)]
      by_cases hk' : kv.1 = k'
      · rw [if_pos hk', if_pos hk']
      · rw [if_neg hk', if_neg hk']; exact ih

theorem mapGet_insert_ne (m : List (String × String)) (k v k' : String) (h : k' ≠ k) :
    mapGet (mapInsert m k v) k' = mapGet m k' := by
  rw [mapInsert, mapGet_cons, if_neg (fun e => h e.symm)]
  exact mapGet_delete_ne m k k' h

/-! ### C2 -/

/-- C2 (counterexample): the claim says that in EVERY no-track-loaded state,
including after `Close()`, `Toggle()` fails with NoTrackLoaded and `Pause()`
is a no-op.  But `Toggle` and `Pause` test `ctrl != nil`, not the stream:
`Close` nils only the stream.  In the reachable state `pCE`
(Load, Play, Close) there is no stream, yet `Toggle` succeeds (returns no
error) and `Pause` changes the state (clears `playing`). -/
theorem C2_close_state_counterexample :
    pCE.stream = none ∧ (toggle pCE).2 = none ∧ pause pCE ≠ pCE := by
  refine ⟨rfl, rfl, fun h => ?_⟩
  have h1 : (pause pCE).playing = false := rfl
  rw [h] at h1
  have h2 : pCE.playing = true := rfl
  exact Bool.noConfusion (h2.symm.trans h1)

/-- C2 (amended): in every state with no stream loaded, `Play()` and `Seek()`
fail with NoTrackLoaded and `Stop()` is a state-preserving no-op; `Toggle()`
failing with NoTrackLoaded and `Pause()` being a no-op additionally require
the ctrl stage to be unset (as in the initial state) — after `Close()` the
ctrl stage survives, so Toggle succeeds and Pause can mutate the state. -/
theorem C2_no_track_transport_guards (p : Player) (hs : p.stream = none) :
    play p = (p, some noTrackLoaded) ∧
    (∀ pos, seek p pos = (p, some noTrackLoaded)) ∧
    stop p = p ∧
    (p.ctrl = none → toggle p = (p, some noTrackLoaded) ∧ pause p = p) := by
  refine ⟨?_, fun pos => ?_, ?_, fun hc => ⟨?_, ?_⟩⟩ <;>
    simp [play, seek, stop, toggle, pause, hs, *]

theorem C2_no_track_transport_guards_witness :
    play newPlayer = (newPlayer, some noTrackLoaded) ∧
    seek newPlayer 5 = (newPlayer, some noTrackLoaded) ∧
    stop newPlayer = newPlayer ∧
    toggle newPlayer = (newPlayer, some noTrackLoaded) ∧
    pause newPlayer = newPlayer :=
  ⟨(C2_no_track_transport_guards newPlayer rfl).1,
   (C2_no_track_transport_guards newPlayer rfl).2.1 5,
   (C2_no_track_transport_guards newPlayer rfl).2.2.1,
   ((C2_no_track_transport_guards newPlayer rfl).2.2.2 rfl).1,
   ((C2_no_track_transport_guards newPlayer rfl).2.2.2 rfl).2⟩

/-! ### C4 -/

/-- C4: a successful `Load(path)` closes the previously open stream first,
calls speaker Init exactly when the device is uninitialized or the sample
rate changed (with the 100ms = `SampleRate.N(second/10)` buffer), installs
the newly opened stream, replaces the completion channel with a fresh
unsignaled one, and leaves the session paused and not playing. -/
theorem C4_load_success_contract (env : AudioEnv) (p p' : Player) (path : String)
    (ev : LoadEvents) (h : load env p path = (p', ev, none)) :
    ∃ s fmt, env.openF path = .ok (s, fmt) ∧
      p'.stream = some s ∧
      ev.closedOld = p.stream.map (fun st => st.id) ∧
      ev.speakerInitCall =
        (if p.inited = false ∨ p.format.sampleRate ≠ fmt.sampleRate then
          some (fmt.sampleRate, sampleRateN fmt.sampleRate (1000000000 / 10))
        else none) ∧
      p'.format = fmt ∧
      p'.ctrl = some { paused := true } ∧
      p'.vol = some { base := 2, volume := 0, silent := false } ∧
      p'.endedGen = p.endedGen + 1 ∧
      p'.endedClosed = false ∧
      p'.playing = false := by
  cases hopen : env.openF path with
  | error e => simp [load, hopen] at h
  | ok sf =>
    obtain ⟨s, fmt⟩ := sf
    refine ⟨s, fmt, rfl, ?_⟩
    by_cases hcond : p.inited = false ∨ p.format.sampleRate ≠ fmt.sampleRate
    · cases hinit : env.speakerInitRes fmt.sampleRate with
      | some e => simp [load, hopen, hcond, hinit] at h
      | none =>
        simp only [load, hopen, hcond, hinit, if_true, eq_self_iff_true] at h
        injection h with hp h2
        injection h2 with hev h3
        subst hp
        subst hev
        exact ⟨rfl, rfl, by rw [if_pos hcond], rfl, rfl, rfl, rfl, rfl, rfl⟩
    · simp only [load, hopen] at h
      rw [if_neg hcond] at h
      injection h with hp h2
      injection h2 with hev h3
      subst hp
      subst hev
      exact ⟨rfl, rfl, by rw [if_neg hcond]; rfl, rfl, rfl, rfl, rfl, rfl, rfl⟩

theorem C4_load_success_contract_witness :
    ∃ s fmt, envW.openF ("t.mp3") = .ok (s, fmt) ∧
      pW1.stream = some s ∧
      evW.closedOld = newPlayer.stream.map (fun st => st.id) ∧
      evW.speakerInitCall =
        (if newPlayer.inited = false ∨ newPlayer.format.sampleRate ≠ fmt.sampleRate then
          some (fmt.sampleRate, sampleRateN fmt.sampleRate (1000000000 / 10))
        else none) ∧
      pW1.format = fmt ∧
      pW1.ctrl = some { paused := true } ∧
      pW1.vol = some { base := 2, volume := 0, silent := false } ∧
      pW1.endedGen = newPlayer.endedGen + 1 ∧
      pW1.endedClosed = false ∧
      pW1.playing = false :=
  C4_load_success_contract envW newPlayer pW1 ("t.mp3") evW rfl

/-! ### C6 -/

/-- C6: with a stream loaded, `Seek(position)` converts the duration to a
sample offset via `SampleRate.N` with the loaded format's rate, delegates to
the stream's own seek, and returns that result unmodified (no clamping, no
error wrapping), leaving the session fields untouched. -/
theorem C6_seek_delegates (p : Player) (st : Stream) (pos : Int)
    (h : p.stream = some st) :
    seek p pos = (p, st.seekRes (sampleRateN p.format.sampleRate pos)) := by
  simp [seek, h]

/-- Witness: seeking 1 second into the 400-sample fixture stream surfaces the
stream's own out-of-range error. -/
theorem C6_seek_delegates_witness :
    seek pW1 1000000000 = (pW1, some ("seek out of range")) := by
  rw [C6_seek_delegates pW1 sW 1000000000 rfl]
  rfl

/-! ### C8 -/

/-- C8: with a track loaded, the second of two consecutive `Play()` calls
returns no error and leaves the state exactly as after the first call. -/
theorem C8_play_idempotent (p : Player) (st : Stream) (h : p.stream = some st) :
    (play (play p).1).1 = (play p).1 ∧ (play (play p).1).2 = none := by
  by_cases hp : p.playing
  · constructor <;> simp [play, h, hp]
  · constructor <;> simp [play, h, hp]

theorem C8_play_idempotent_witness :
    (play (play pW1).1).1 = (play pW1).1 ∧ (play (play pW1).1).2 = none :=
  C8_play_idempotent pW1 sW rfl

/-! ### C9 -/

/-- C9: with a volume stage present, `SetVolume(linear)` marks the stage
silent with zero gain for `linear ≤ 0`; for positive `linear` (including
values above 1, which are accepted, not rejected) it clears the silent flag
and stores `log linear / log base`; in particular `SetVolume(1)` stores
exactly 0 (unity gain in log units). -/
theorem C9_setVolume_contract (p : Player) (v : VolumeS) (h : p.vol = some v)
    (linear : ℝ) :
    (linear ≤ 0 →
      setVolume p linear = { p with vol := some { v with silent := true, volume := 0 } }) ∧
    (0 < linear →
      setVolume p linear =
        { p with vol := some { v with
            silent := false
            volume := Real.log linear / Real.log v.base } }) ∧
    (setVolume p 1).vol = some { v with silent := false, volume := 0 } := by
  refine ⟨fun hle => ?_, fun hpos => ?_, ?_⟩
  · simp [setVolume, h, hle]
  · simp [setVolume, h, not_le.mpr hpos]
  · simp [setVolume, h, (by norm_num : ¬ (1 : ℝ) ≤ 0), Real.log_one]

theorem C9_setVolume_contract_witness :
    setVolume pV 1 =
      { pV with vol := some { vW with
          silent := false
          volume := Real.log 1 / Real.log vW.base } } ∧
    (setVolume pV 1).vol = some { vW with silent := false, volume := 0 } :=
  ⟨(C9_setVolume_contract pV vW rfl 1).2.1 one_pos,
   (C9_setVolume_contract pV vW rfl 1).2.2⟩

/-! ### C5 -/

/-- C5: (a) after a lazy accessor runs, the track's metadata record exists
and its loaded-flag is true (success or failure alike); (b) once the flag is
true the loader is a no-op — no second extraction attempt until the scanner
resets the flag; (c) extraction is gated: any format that is not `.mp3`
(up to `strings.EqualFold`) fails with the metadata-unsupported error;
(d) that failure never surfaces through the accessor: it returns the empty
value and just marks the record loaded. -/
theorem C5_lazy_metadata_contract (env : MetaEnv) :
    (∀ t, (((artistA env t).2.metadata.map (fun m => m.loaded)).getD false) = true) ∧
    (∀ t m, t.metadata = some m → m.loaded = true → loadMetadata env t = t) ∧
    (∀ t m, eqFold t.format (".mp3") = false →
      extractMetadata env t m =
        .error ("metadata extraction not supported for format: " ++ t.format)) ∧
    (∀ t, eqFold t.format (".mp3") = false → t.metadata = some emptyMetadata →
      artistA env t =
        ("", { t with metadata := some { emptyMetadata with loaded := true } })) := by
  refine ⟨fun t => ?_, fun t m hm hl => ?_, fun t m h => ?_, fun t h hm => ?_⟩
  · cases hm : t.metadata with
    | none => simp [artistA, loadMetadata, hm, attemptLoad]
    | some m =>
      cases hl : m.loaded with
      | true => simp [artistA, loadMetadata, hm, hl]
      | false => simp [artistA, loadMetadata, hm, hl, attemptLoad]
  · simp [loadMetadata, hm, hl]
  · simp [extractMetadata, h]
  · simp [artistA, loadMetadata, hm, attemptLoad, extractMetadata, h, emptyMetadata]

theorem C5_lazy_metadata_contract_witness :
    loadMetadata envM { tWav with metadata := some { emptyMetadata with loaded := true } } =
      { tWav with metadata := some { emptyMetadata with loaded := true } } ∧
    extractMetadata envM tWav emptyMetadata =
      .error ("metadata extraction not supported for format: " ++ tWav.format) ∧
    artistA envM tWav =
      ("", { tWav with metadata := some { emptyMetadata with loaded := true } }) :=
  ⟨(C5_lazy_metadata_contract envM).2.1 _ _ rfl rfl,
   (C5_lazy_metadata_contract envM).2.2.1 tWav emptyMetadata rfl,
   (C5_lazy_metadata_contract envM).2.2.2 tWav rfl rfl⟩

/-! ### C3 -/

/-- C3 (code bug): modification detection is supposed to count the changed
file as updated and reset its metadata loaded-flag.  But every track that
came back from the persisted cache has a nil metadata pointer (the field is
unexported/json:"-"), and `updateTrack` dereferences it unconditionally
after refreshing duration/size/modified — a nil-pointer panic, modelled as
the `none` outcome, killing the whole scan.  The conjuncts show: (1) the
dereference itself panics even though stat and duration succeeded; (2) the
standard rescan-after-modification therefore crashes; (3) with the metadata
record still present (cache file missing, tracks retained in memory) the
scan behaves exactly as the claim says: updated = 1 and the loaded-flag is
reset to false. -/
theorem C3_update_nil_metadata_panic :
    updateTrack fsM (loadCache cM sM).1 (stripMetadataT trackM) "assets/a.mp3" = none ∧
    scan fsM 1 0 sM cM = none ∧
    (scan fsM 1 0 sM cMGood).isSome = true ∧
    (scan fsM 1 0 sM cMGood).map (fun out => out.2.2.updatedTracks) = some 1 ∧
    (scan fsM 1 0 sM cMGood).map
        (fun out => out.1.tracks.map (fun t => t.metadata.map (fun m => m.loaded))) =
      some [some false] := by
  exact ⟨rfl, rfl, rfl, rfl, rfl⟩

/-! ### Walk lemmas for C1: the directory walk never drops a cataloged track -/

theorem findTrackByPath_path_eq {s : Scanner} {p : String} {t : Track}
    (h : findTrackByPath s p = some t) : t.path = p := by
  have := List.find?_some h
  simpa using this

theorem findTrack_append_isSome {ts : List Track} {p : String} (t : Track)
    (h : (ts.find? (fun u => u.path == p)).isSome = true) :
    ((ts ++ [t]).find? (fun u => u.path == p)).isSome = true := by
  rw [List.find?_isSome] at h ⊢
  obtain ⟨x, hx, hpx⟩ := h
  exact ⟨x, List.mem_append_left _ hx, hpx⟩

theorem findTrack_replaceFirst_isSome (ts : List Track) (q : String) (nt : Track)
    (hq : nt.path = q) (p : String) :
    ((replaceFirstTrack ts q nt).find? (fun u => u.path == p)).isSome
      = (ts.find? (fun u => u.path == p)).isSome := by
  induction ts with
  | nil => rfl
  | cons t ts ih =>
    show ((if t.path == q then nt :: ts else t :: replaceFirstTrack ts q nt).find?
      (fun u => u.path == p)).isSome = _
    by_cases hqt : t.path = q
    · rw [if_pos (by simpa using hqt)]
      by_cases hp : t.path = p
      · have hnt : nt.path = p := by rw [hq, ← hqt, hp]
        rw [List.find?_cons_of_pos _ (by simpa using hnt),
          List.find?_cons_of_pos _ (by simpa using hp)]
        rfl
      · have hnt : ¬ nt.path = p := by rw [hq, ← hqt]; exact hp
        rw [List.find?_cons_of_neg _ (by simpa using hnt),
          List.find?_cons_of_neg _ (by simpa using hp)]
    · rw [if_neg (by simpa using hqt)]
      by_cases hp : t.path = p
      · rw [List.find?_cons_of_pos _ (by simpa using hp),
          List.find?_cons_of_pos _ (by simpa using hp)]
      · rw [List.find?_cons_of_neg _ (by simpa using hp),
          List.find?_cons_of_neg _ (by simpa using hp)]
        exact ih

theorem updateTrack_ok_shape {fs : FS} {s : Scanner} {t : Track} {fp : String}
    {s1 : Scanner} (h : updateTrack fs s t fp = some (.ok s1)) :
    ∃ info dur m, fs.stat fp = some info ∧ fs.duration fp = some dur ∧
      t.metadata = some m ∧
      s1 = { s with
        tracks := replaceFirstTrack s.tracks fp
          { t with
              duration := dur
              size := info.size
              modified := info.modTime
              metadata := some { m with loaded := false } }
        fileHashes := mapInsert s.fileHashes fp (fs.hash fp) } := by
  unfold updateTrack at h
  cases hstat : fs.stat fp with
  | none => simp [hstat] at h
  | some info =>
    cases hdur : fs.duration fp with
    | none => simp [hstat, hdur] at h
    | some dur =>
      cases hmet : t.metadata with
      | none => simp [hstat, hdur, hmet] at h
      | some m =>
        refine ⟨info, dur, m, rfl, rfl, rfl, ?_⟩
        simp only [hstat, hdur, hmet, Option.some.injEq, Except.ok.injEq] at h
        exact h.symm

theorem createTrack_ok_shape {fs : FS} {s : Scanner} {fp : String} {t : Track}
    {s1 : Scanner} (h : createTrack fs s fp = .ok (t, s1)) :
    ∃ info dur, fs.stat fp = some info ∧ fs.duration fp = some dur ∧
      t = NewTrack fp dur info.size info.modTime ∧
      s1 = { s with fileHashes := mapInsert s.fileHashes fp (fs.hash fp) } := by
  unfold createTrack at h
  cases hstat : fs.stat fp with
  | none => simp [hstat] at h
  | some info =>
    cases hdur : fs.duration fp with
    | none => simp [hstat, hdur] at h
    | some dur =>
      simp only [hstat, hdur, Except.ok.injEq, Prod.mk.injEq] at h
      exact ⟨info, dur, rfl, rfl, h.1.symm, h.2.symm⟩

/-- Everything `processAudioFile` can do when it returns `.ok`: skip a known
unchanged file, update a known changed file, or create a track for an
unknown file. -/
theorem processAudioFile_ok_cases {fs : FS} {s : Scanner} {d : String}
    {e : DirEntry} {r : ScanResult} {s' : Scanner} {r' : ScanResult}
    (h : processAudioFile fs s d e r = some (.ok (s', r'))) :
    (∃ t, findTrackByPath s (pathJoin d e.name) = some t ∧
      hasFileChanged fs s (pathJoin d e.name) = false ∧ s' = s ∧ r' = r) ∨
    (∃ t s1, findTrackByPath s (pathJoin d e.name) = some t ∧
      hasFileChanged fs s (pathJoin d e.name) = true ∧
      updateTrack fs s t (pathJoin d e.name) = some (.ok s1) ∧ s' = s1 ∧
      r' = { r with updatedTracks := r.updatedTracks + 1 }) ∨
    (∃ t s1, findTrackByPath s (pathJoin d e.name) = none ∧
      createTrack fs s (pathJoin d e.name) = .ok (t, s1) ∧
      s' = { s1 with tracks := s1.tracks ++ [t] } ∧
      r' = { r with newTracks := r.newTracks + 1 }) := by
  unfold processAudioFile at h
  cases hf : findTrackByPath s (pathJoin d e.name) with
  | some t =>
    by_cases hch : hasFileChanged fs s (pathJoin d e.name) = false
    · simp only [hf, if_pos hch, Option.some.injEq, Except.ok.injEq,
        Prod.mk.injEq] at h
      exact Or.inl ⟨t, rfl, hch, h.1.symm, h.2.symm⟩
    · cases hupd : updateTrack fs s t (pathJoin d e.name) with
      | none => simp [hf, if_neg hch, hupd] at h
      | some out =>
        cases out with
        | error msg => simp [hf, if_neg hch, hupd] at h
        | ok s1 =>
          simp only [hf, if_neg hch, hupd, Option.some.injEq, Except.ok.injEq,
            Prod.mk.injEq] at h
          exact Or.inr (Or.inl ⟨t, s1, rfl,
            by simpa using hch, hupd, h.1.symm, h.2.symm⟩)
  | none =>
    cases hcr : createTrack fs s (pathJoin d e.name) with
    | error msg => simp [hf, hcr] at h
    | ok ts1 =>
      obtain ⟨t, s1⟩ := ts1
      simp only [hf, hcr, Option.some.injEq, Except.ok.injEq,
        Prod.mk.injEq] at h
      exact Or.inr (Or.inr ⟨t, s1, rfl, rfl, h.1.symm, h.2.symm⟩)

theorem processAudioFile_find_mono {fs : FS} {s : Scanner} {d : String} {e : DirEntry}
    {r : ScanResult} {s' : Scanner} {r' : ScanResult}
    (h : processAudioFile fs s d e r = some (.ok (s', r')))
    (p : String) (hp : (findTrackByPath s p).isSome = true) :
    (findTrackByPath s' p).isSome = true := by
  rcases processAudioFile_ok_cases h with ⟨t, hf, hch, hs, -⟩ |
    ⟨t, s1, hf, -, hupd, hs, -⟩ | ⟨t, s1, hf, hcr, hs, -⟩
  · subst hs; exact hp
  · obtain ⟨info, dur, m, -, -, -, hs1⟩ := updateTrack_ok_shape hupd
    subst hs
    subst hs1
    have hq : t.path = pathJoin d e.name := findTrackByPath_path_eq hf
    refine Eq.trans ?_ hp
    exact findTrack_replaceFirst_isSome _ _ _ (by simp [hq]) p
  · obtain ⟨info, dur, -, -, -, hs1⟩ := createTrack_ok_shape hcr
    subst hs
    subst hs1
    exact findTrack_append_isSome _ hp

theorem scanEntriesWith_find_mono
    {sub : Scanner → ScanResult → String → Option (Except String (Scanner × ScanResult))}
    (hsub : ∀ s r d s' r', sub s r d = some (.ok (s', r')) →
      ∀ p, (findTrackByPath s p).isSome = true → (findTrackByPath s' p).isSome = true)
    {fs : FS} {dirPath : String} :
    ∀ {entries : List DirEntry} {s : Scanner} {r : ScanResult} {s' : Scanner}
      {r' : ScanResult},
      scanEntriesWith sub fs dirPath entries s r = some (s', r') →
      ∀ p, (findTrackByPath s p).isSome = true → (findTrackByPath s' p).isSome = true := by
  intro entries
  induction entries with
  | nil =>
    intro s r s' r' h p hp
    simp only [scanEntriesWith, Option.some.injEq, Prod.mk.injEq] at h
    obtain ⟨hs, -⟩ := h
    subst hs
    exact hp
  | cons e es ih =>
    intro s r s' r' h p hp
    rw [scanEntriesWith] at h
    by_cases hdir : e.isDir
    · rw [if_pos hdir] at h
      cases hrec : sub s r (pathJoin dirPath e.name) with
      | none => simp [hrec] at h
      | some out =>
        simp only [hrec] at h
        cases out with
        | error msg => exact ih h p hp
        | ok sr =>
          obtain ⟨s1, r1⟩ := sr
          exact ih h p (hsub _ _ _ _ _ hrec p hp)
    · rw [if_neg hdir] at h
      by_cases hext : s.extensions.contains (strToLower (pathExt e.name)) = false
      · rw [if_pos hext] at h
        exact ih h p hp
      · rw [if_neg hext] at h
        cases hproc : processAudioFile fs s dirPath e r with
        | none => simp [hproc] at h
        | some out =>
          simp only [hproc] at h
          cases out with
          | error msg => exact ih h p hp
          | ok sr =>
            obtain ⟨s1, r1⟩ := sr
            exact ih h p (processAudioFile_find_mono hproc p hp)

theorem scanDirectory_find_mono {fs : FS} :
    ∀ (fuel : Nat) {s : Scanner} {r : ScanResult} {d : String} {s' : Scanner}
      {r' : ScanResult},
      scanDirectory fs fuel s r d = some (.ok (s', r')) →
      ∀ p, (findTrackByPath s p).isSome = true → (findTrackByPath s' p).isSome = true := by
  intro fuel
  induction fuel with
  | zero => intro s r d s' r' h; exact absurd h (by simp [scanDirectory])
  | succ fuel ih =>
    intro s r d s' r' h p hp
    rw [scanDirectory] at h
    cases hrd : fs.readDir d with
    | none => simp [hrd] at h
    | some entries =>
      simp only [hrd] at h
      cases hw : scanEntriesWith (fun s1 r1 d1 => scanDirectory fs fuel s1 r1 d1)
          fs d entries s r with
      | none => simp [hw] at h
      | some sr =>
        obtain ⟨s1, r1⟩ := sr
        simp only [hw, Option.some.injEq, Except.ok.injEq,
          Prod.mk.injEq] at h
        obtain ⟨hs, -⟩ := h
        subst hs
        exact scanEntriesWith_find_mono (fun s r d s' r' hrec => ih hrec) hw p hp

theorem scanRootsGo_find_mono {fs : FS} {fuel : Nat} :
    ∀ {roots : List String} {s : Scanner} {r : ScanResult} {s' : Scanner}
      {r' : ScanResult},
      scanRootsGo fs fuel roots s r = some (s', r') →
      ∀ p, (findTrackByPath s p).isSome = true → (findTrackByPath s' p).isSome = true := by
  intro roots
  induction roots with
  | nil =>
    intro s r s' r' h p hp
    simp only [scanRootsGo, Option.some.injEq, Prod.mk.injEq] at h
    obtain ⟨hs, -⟩ := h
    subst hs
    exact hp
  | cons root rest ih =>
    intro s r s' r' h p hp
    rw [scanRootsGo] at h
    cases hd : scanDirectory fs fuel s r root with
    | none => simp [hd] at h
    | some out =>
      simp only [hd] at h
      cases out with
      | error msg => exact ih h p hp
      | ok sr =>
        obtain ⟨s1, r1⟩ := sr
        exact ih h p (scanDirectory_find_mono fuel hd p hp)

/-! ### Eviction lemmas for C1 -/

theorem removeDeletedGo_find_gone (fs : FS) (p : String) (hgone : fs.stat p = none) :
    ∀ (ts : List Track) (hashes : List (String × String)) (n : Nat),
      ((removeDeletedGo fs ts hashes n).1.find? (fun u => u.path == p)) = none := by
  intro ts
  induction ts with
  | nil => intro hashes n; rfl
  | cons t ts ih =>
    intro hashes n
    rw [removeDeletedGo]
    by_cases hst : (fs.stat t.path).isNone
    · rw [if_pos hst]
      exact ih _ _
    · rw [if_neg hst]
      have hne : ¬ t.path = p := by
        intro e
        rw [e, hgone] at hst
        exact hst rfl
      rw [List.find?_cons_of_neg]
      · exact ih _ _
      · simpa using hne

theorem removeDeletedGo_hash_stays_none (fs : FS) (p : String) :
    ∀ (ts : List Track) (hashes : List (String × String)) (n : Nat),
      mapGet hashes p = none →
      mapGet (removeDeletedGo fs ts hashes n).2.1 p = none := by
  intro ts
  induction ts with
  | nil => intro hashes n h; exact h
  | cons t ts ih =>
    intro hashes n h
    rw [removeDeletedGo]
    by_cases hst : (fs.stat t.path).isNone
    · rw [if_pos hst]
      refine ih _ _ ?_
      by_cases he : p = t.path
      · rw [he]; exact mapGet_delete_self _ _
      · rw [mapGet_delete_ne _ _ _ he]; exact h
    · rw [if_neg hst]
      exact ih _ _ h

theorem removeDeletedGo_count_mono (fs : FS) :
    ∀ (ts : List Track) (hashes : List (String × String)) (n : Nat),
      n ≤ (removeDeletedGo fs ts hashes n).2.2 := by
  intro ts
  induction ts with
  | nil => intro hashes n; exact le_refl n
  | cons t ts ih =>
    intro hashes n
    rw [removeDeletedGo]
    by_cases hst : (fs.stat t.path).isNone
    · rw [if_pos hst]
      exact le_trans (Nat.le_succ n) (ih _ _)
    · rw [if_neg hst]
      exact ih _ _

theorem removeDeletedGo_evicts (fs : FS) (p : String) (hgone : fs.stat p = none) :
    ∀ (ts : List Track) (hashes : List (String × String)) (n : Nat),
      (ts.find? (fun u => u.path == p)).isSome = true →
      ((removeDeletedGo fs ts hashes n).1.find? (fun u => u.path == p)) = none ∧
      mapGet (removeDeletedGo fs ts hashes n).2.1 p = none ∧
      n + 1 ≤ (removeDeletedGo fs ts hashes n).2.2 := by
  intro ts
  induction ts with
  | nil => intro hashes n h; exact absurd h (by simp [List.find?])
  | cons t ts ih =>
    intro hashes n h
    rw [removeDeletedGo]
    by_cases hst : (fs.stat t.path).isNone
    · rw [if_pos hst]
      by_cases hpt : t.path = p
      · refine ⟨removeDeletedGo_find_gone fs p hgone _ _ _, ?_, ?_⟩
        · refine removeDeletedGo_hash_stays_none fs p _ _ _ ?_
          rw [← hpt]
          exact mapGet_delete_self _ _
        · exact removeDeletedGo_count_mono fs _ _ _
      · have h' : (ts.find? (fun u => u.path == p)).isSome = true := by
          rw [List.find?_cons_of_neg _ (by simpa using hpt)] at h
          exact h
        obtain ⟨h1, h2, h3⟩ := ih _ (n + 1) h'
        exact ⟨h1, h2, le_trans (Nat.le_succ _) h3⟩
    · rw [if_neg hst]
      have hpt : ¬ t.path = p := by
        intro e
        rw [e, hgone] at hst
        exact hst rfl
      have h' : (ts.find? (fun u => u.path == p)).isSome = true := by
        rw [List.find?_cons_of_neg _ (by simpa using hpt)] at h
        exact h
      obtain ⟨h1, h2, h3⟩ := ih _ n h'
      refine ⟨?_, h2, h3⟩
      rw [List.find?_cons_of_neg]
      · exact h1
      · simpa using hpt

/-! ### C1 -/

/-- C1: if a `Scan` completes, then every previously cataloged track whose
file no longer exists on disk is gone from the resulting catalog: lookup by
its path resolves to nothing, its hash-map entry is deleted, and the scan
counted at least one removal. -/
theorem C1_scan_evicts_deleted_paths (fs : FS) (fuel : Nat) (now : Int)
    (s0 : Scanner) (c0 : CacheState) (s1 : Scanner) (c1 : CacheState)
    (r1 : ScanResult) (t : Track) (p : String)
    (h : scan fs fuel now s0 c0 = some (s1, c1, r1))
    (hmem : t ∈ (loadCache c0 s0).1.tracks) (hpath : t.path = p)
    (hgone : fs.stat p = none) :
    findTrackByPath s1 p = none ∧ mapGet s1.fileHashes p = none ∧
      1 ≤ r1.removedTracks := by
  simp only [scan] at h
  cases hroots : scanRootsGo fs fuel (loadCache c0 s0).1.scanPaths (loadCache c0 s0).1
      (scanInitResult now (loadCache c0 s0).2) with
  | none => rw [hroots] at h; exact absurd h (by simp)
  | some sr =>
    rw [hroots] at h
    obtain ⟨s2, r2⟩ := sr
    simp only [Option.some.injEq, Prod.mk.injEq] at h
    obtain ⟨hs1, -, hr1⟩ := h
    have hp0 : (findTrackByPath (loadCache c0 s0).1 p).isSome = true := by
      rw [findTrackByPath, List.find?_isSome]
      exact ⟨t, hmem, by simpa using hpath⟩
    have hp2 : (findTrackByPath s2 p).isSome = true :=
      scanRootsGo_find_mono hroots p hp0
    have hout := removeDeletedGo_evicts fs p hgone s2.tracks s2.fileHashes 0 hp2
    obtain ⟨h1, h2, h3⟩ := hout
    refine ⟨?_, ?_, ?_⟩
    · rw [← hs1]
      exact h1
    · rw [← hs1]
      exact h2
    · rw [← hr1]
      exact le_trans h3 (Nat.le_add_left _ _)

/-- Witness for C1 on the deletion fixture: the cache knows
`assets/gone.mp3`, the disk does not, and one rescan evicts it. -/
theorem C1_scan_evicts_deleted_paths_witness :
    findTrackByPath s1D ("assets/gone.mp3") = none ∧
    mapGet s1D.fileHashes ("assets/gone.mp3") = none ∧
    1 ≤ r1D.removedTracks :=
  C1_scan_evicts_deleted_paths fsD 1 0 sD cD s1D c1D r1D (stripMetadataT trackD)
    ("assets/gone.mp3") rfl (List.mem_singleton.mpr rfl) rfl rfl

/-! ### Step lemmas for C7: what one processed file does to `NoopP` -/

theorem hasFileChanged_congr {fs : FS} {s s' : Scanner} {q : String}
    (h : mapGet s'.fileHashes q = mapGet s.fileHashes q) :
    hasFileChanged fs s' q = hasFileChanged fs s q := by
  unfold hasFileChanged
  rw [h]

theorem NoopP_congr {fs : FS} {s s' : Scanner} {q : String}
    (hfind : (findTrackByPath s' q).isSome = (findTrackByPath s q).isSome)
    (hhash : mapGet s'.fileHashes q = mapGet s.fileHashes q) :
    NoopP fs s q → NoopP fs s' q := by
  rintro (hpf | ⟨hsome, hch⟩)
  · exact Or.inl hpf
  · exact Or.inr ⟨by rw [hfind]; exact hsome,
      by rw [hasFileChanged_congr hhash]; exact hch⟩

theorem findTrack_append_self {ts : List Track} {p : String} {t : Track}
    (ht : t.path = p) :
    ((ts ++ [t]).find? (fun u => u.path == p)).isSome = true := by
  rw [List.find?_isSome]
  exact ⟨t, List.mem_append_right _ (List.mem_singleton.mpr rfl), by simpa using ht⟩

theorem findTrack_append_other {ts : List Track} {q : String} {t : Track}
    (ht : ¬ t.path = q) :
    ((ts ++ [t]).find? (fun u => u.path == q)).isSome
      = (ts.find? (fun u => u.path == q)).isSome := by
  induction ts with
  | nil =>
    show ((t :: []).find? (fun u => u.path == q)).isSome = _
    rw [List.find?_cons_of_neg _ (by simpa using ht)]
  | cons u ts ih =>
    by_cases hu : u.path = q
    · rw [List.cons_append, List.find?_cons_of_pos _ (by simpa using hu),
        List.find?_cons_of_pos _ (by simpa using hu)]
    · rw [List.cons_append, List.find?_cons_of_neg _ (by simpa using hu),
        List.find?_cons_of_neg _ (by simpa using hu)]
      exact ih

theorem findTrack_map_strip (ts : List Track) (q : String) :
    ((ts.map stripMetadataT).find? (fun u => u.path == q)).isSome
      = (ts.find? (fun u => u.path == q)).isSome := by
  induction ts with
  | nil => rfl
  | cons t ts ih =>
    by_cases ht : t.path = q
    · rw [List.map_cons, List.find?_cons_of_pos _ (by simpa [stripMetadataT] using ht),
        List.find?_cons_of_pos _ (by simpa using ht)]
      rfl
    · rw [List.map_cons, List.find?_cons_of_neg _ (by simpa [stripMetadataT] using ht),
        List.find?_cons_of_neg _ (by simpa using ht)]
      exact ih

theorem updateTrack_error_shape {fs : FS} {s : Scanner} {t : Track} {fp : String}
    {msg : String} (h : updateTrack fs s t fp = some (.error msg)) :
    procFails fs fp := by
  unfold updateTrack at h
  cases hstat : fs.stat fp with
  | none => exact Or.inl hstat
  | some info =>
    cases hdur : fs.duration fp with
    | none => exact Or.inr hdur
    | some dur =>
      cases hmet : t.metadata with
      | none => simp [hstat, hdur, hmet] at h
      | some m => simp [hstat, hdur, hmet] at h

theorem createTrack_error_shape {fs : FS} {s : Scanner} {fp : String}
    {msg : String} (h : createTrack fs s fp = .error msg) :
    procFails fs fp := by
  unfold createTrack at h
  cases hstat : fs.stat fp with
  | none => exact Or.inl hstat
  | some info =>
    cases hdur : fs.duration fp with
    | none => exact Or.inr hdur
    | some dur => simp [hstat, hdur] at h

theorem updateTrack_fails {fs : FS} {s : Scanner} {t : Track} {fp : String}
    (h : procFails fs fp) : ∃ msg, updateTrack fs s t fp = some (.error msg) := by
  unfold updateTrack
  cases hstat : fs.stat fp with
  | none => exact ⟨_, rfl⟩
  | some info =>
    cases hdur : fs.duration fp with
    | none => exact ⟨_, rfl⟩
    | some dur =>
      rcases h with h | h
      · rw [hstat] at h; exact absurd h (by simp)
      · rw [hdur] at h; exact absurd h (by simp)

theorem createTrack_fails {fs : FS} {s : Scanner} {fp : String}
    (h : procFails fs fp) : ∃ msg, createTrack fs s fp = .error msg := by
  unfold createTrack
  cases hstat : fs.stat fp with
  | none => exact ⟨_, rfl⟩
  | some info =>
    cases hdur : fs.duration fp with
    | none => exact ⟨_, rfl⟩
    | some dur =>
      rcases h with h | h
      · rw [hstat] at h; exact absurd h (by simp)
      · rw [hdur] at h; exact absurd h (by simp)

theorem processAudioFile_error_shape {fs : FS} {s : Scanner} {d : String}
    {e : DirEntry} {r : ScanResult} {msg : String}
    (h : processAudioFile fs s d e r = some (.error msg)) :
    procFails fs (pathJoin d e.name) := by
  unfold processAudioFile at h
  cases hf : findTrackByPath s (pathJoin d e.name) with
  | some t =>
    by_cases hch : hasFileChanged fs s (pathJoin d e.name) = false
    · simp [hf, if_pos hch] at h
    · cases hupd : updateTrack fs s t (pathJoin d e.name) with
      | none => simp [hf, if_neg hch, hupd] at h
      | some out =>
        cases out with
        | error m2 => exact updateTrack_error_shape hupd
        | ok s1 => simp [hf, if_neg hch, hupd] at h
  | none =>
    cases hcr : createTrack fs s (pathJoin d e.name) with
    | error m2 => exact createTrack_error_shape hcr
    | ok ts1 => obtain ⟨t, s1⟩ := ts1; simp [hf, hcr] at h

/-- From a state in which the file is a no-op, processing it completes and
either returns the state and result untouched or fails with a collected
error (leaving the state untouched either way) — never a panic, never a
count. -/
theorem processAudioFile_noop {fs : FS} {s : Scanner} {d : String} {e : DirEntry}
    {r : ScanResult} (h : NoopP fs s (pathJoin d e.name)) :
    processAudioFile fs s d e r = some (.ok (s, r)) ∨
    ∃ msg, processAudioFile fs s d e r = some (.error msg) := by
  rcases h with hpf | ⟨hsome, hch⟩
  · cases hf : findTrackByPath s (pathJoin d e.name) with
    | some t =>
      by_cases hch : hasFileChanged fs s (pathJoin d e.name) = false
      · exact Or.inl (by simp [processAudioFile, hf, if_pos hch])
      · obtain ⟨msg, hupd⟩ := updateTrack_fails (s := s) (t := t) hpf
        exact Or.inr ⟨"failed to update track: " ++ msg,
          by simp [processAudioFile, hf, if_neg hch, hupd]⟩
    | none =>
      obtain ⟨msg, hcr⟩ := createTrack_fails (s := s) hpf
      exact Or.inr ⟨"failed to create track: " ++ msg,
        by simp [processAudioFile, hf, hcr]⟩
  · obtain ⟨t, hf⟩ := Option.isSome_iff_exists.mp hsome
    exact Or.inl (by simp [processAudioFile, hf, if_pos hch])

/-- Cataloged hash equal to the current content hash means unchanged. -/
theorem hasFileChanged_of_recorded {fs : FS} {s : Scanner} {p : String}
    (h : mapGet s.fileHashes p = some (fs.hash p)) :
    hasFileChanged fs s p = false := by
  unfold hasFileChanged
  rw [h]
  simp

/-- Processing a file makes that very file a no-op for the next scan. -/
theorem processAudioFile_establishes {fs : FS} {s : Scanner} {d : String}
    {e : DirEntry} {r : ScanResult} {s' : Scanner} {r' : ScanResult}
    (h : processAudioFile fs s d e r = some (.ok (s', r'))) :
    NoopP fs s' (pathJoin d e.name) := by
  rcases processAudioFile_ok_cases h with ⟨t, hf, hch, hs, -⟩ |
    ⟨t, s1, hf, -, hupd, hs, -⟩ | ⟨t, s1, hf, hcr, hs, -⟩
  · subst hs
    exact Or.inr ⟨by simp [hf], hch⟩
  · obtain ⟨info, dur, m, -, -, -, hs1⟩ := updateTrack_ok_shape hupd
    subst hs
    subst hs1
    have hq : t.path = pathJoin d e.name := findTrackByPath_path_eq hf
    have hf' : s.tracks.find? (fun u => u.path == pathJoin d e.name) = some t := hf
    refine Or.inr ⟨?_, ?_⟩
    · have h2 := findTrack_replaceFirst_isSome s.tracks (pathJoin d e.name)
        { t with
            duration := dur
            size := info.size
            modified := info.modTime
            metadata := some { m with loaded := false } }
        (by simp [hq]) (pathJoin d e.name)
      exact h2.trans (by rw [hf']; rfl)
    · exact hasFileChanged_of_recorded (mapGet_insert_self _ _ _)
  · obtain ⟨info, dur, -, -, ht, hs1⟩ := createTrack_ok_shape hcr
    subst hs
    subst hs1
    refine Or.inr ⟨?_, ?_⟩
    · exact findTrack_append_self (by rw [ht]; rfl)
    · exact hasFileChanged_of_recorded (mapGet_insert_self _ _ _)

/-- Processing one file preserves no-op-ness of every path. -/
theorem processAudioFile_preserves {fs : FS} {s : Scanner} {d : String}
    {e : DirEntry} {r : ScanResult} {s' : Scanner} {r' : ScanResult}
    (h : processAudioFile fs s d e r = some (.ok (s', r'))) (q : String)
    (hq : NoopP fs s q) : NoopP fs s' q := by
  by_cases hqp : q = pathJoin d e.name
  · subst hqp
    exact processAudioFile_establishes h
  · rcases processAudioFile_ok_cases h with ⟨t, hf, hch, hs, -⟩ |
      ⟨t, s1, hf, -, hupd, hs, -⟩ | ⟨t, s1, hf, hcr, hs, -⟩
    · subst hs; exact hq
    · obtain ⟨info, dur, m, -, -, -, hs1⟩ := updateTrack_ok_shape hupd
      subst hs
      subst hs1
      have hqt : t.path = pathJoin d e.name := findTrackByPath_path_eq hf
      refine NoopP_congr ?_ ?_ hq
      · exact findTrack_replaceFirst_isSome _ _ _ (by simp [hqt]) q
      · exact mapGet_insert_ne _ _ _ _ hqp
    · obtain ⟨info, dur, -, -, ht, hs1⟩ := createTrack_ok_shape hcr
      subst hs
      subst hs1
      refine NoopP_congr ?_ ?_ hq
      · exact findTrack_append_other (by rw [ht]; exact fun e2 => hqp e2.symm)
      · exact mapGet_insert_ne _ _ _ _ hqp

/-- Processing one file never changes the configured extension set. -/
theorem processAudioFile_exts {fs : FS} {s : Scanner} {d : String}
    {e : DirEntry} {r : ScanResult} {s' : Scanner} {r' : ScanResult}
    (h : processAudioFile fs s d e r = some (.ok (s', r'))) :
    s'.extensions = s.extensions := by
  rcases processAudioFile_ok_cases h with ⟨t, -, -, hs, -⟩ |
    ⟨t, s1, -, -, hupd, hs, -⟩ | ⟨t, s1, -, hcr, hs, -⟩
  · subst hs; rfl
  · obtain ⟨info, dur, m, -, -, -, hs1⟩ := updateTrack_ok_shape hupd
    subst hs; subst hs1; rfl
  · obtain ⟨info, dur, -, -, ht, hs1⟩ := createTrack_ok_shape hcr
    subst hs; subst hs1; rfl

/-! ### Fold lemmas for C7: the whole walk establishes `NoopP` on every
file it processed, and preserves the scanner configuration -/

theorem scanEntriesWith_inv {fs : FS} {exts : List String}
    {sub : Scanner → ScanResult → String → Option (Except String (Scanner × ScanResult))}
    {wf : String → List String}
    (hsub : ∀ {s r d s' r'}, sub s r d = some (.ok (s', r')) →
      s.extensions = exts →
      (∀ q, NoopP fs s q → NoopP fs s' q) ∧ (∀ q ∈ wf d, NoopP fs s' q) ∧
        s'.extensions = exts)
    (hsub_err : ∀ {s r d msg}, sub s r d = some (.error msg) → wf d = [])
    {dirPath : String} :
    ∀ {entries : List DirEntry} {s : Scanner} {r : ScanResult} {s' : Scanner}
      {r' : ScanResult},
      scanEntriesWith sub fs dirPath entries s r = some (s', r') →
      s.extensions = exts →
      (∀ q, NoopP fs s q → NoopP fs s' q) ∧
      (∀ q ∈ entryFilesWith wf exts dirPath entries, NoopP fs s' q) ∧
      s'.extensions = exts := by
  intro entries
  induction entries with
  | nil =>
    intro s r s' r' h hexts
    simp only [scanEntriesWith, Option.some.injEq, Prod.mk.injEq] at h
    obtain ⟨hs, -⟩ := h
    subst hs
    exact ⟨fun q hq => hq, fun q hq => absurd hq (by simp [entryFilesWith]), hexts⟩
  | cons e es ih =>
    intro s r s' r' h hexts
    rw [scanEntriesWith] at h
    by_cases hdir : e.isDir
    · rw [if_pos hdir] at h
      cases hrec : sub s r (pathJoin dirPath e.name) with
      | none => simp [hrec] at h
      | some out =>
        simp only [hrec] at h
        cases out with
        | error msg =>
          obtain ⟨hpres, hest, hexts'⟩ := ih h hexts
          refine ⟨hpres, ?_, hexts'⟩
          intro q hq
          rw [entryFilesWith, if_pos hdir, hsub_err hrec, List.nil_append] at hq
          exact hest q hq
        | ok sr =>
          obtain ⟨s1, r1⟩ := sr
          obtain ⟨hp1, he1, hx1⟩ := hsub hrec hexts
          obtain ⟨hpres, hest, hexts'⟩ := ih h hx1
          refine ⟨fun q hq => hpres q (hp1 q hq), ?_, hexts'⟩
          intro q hq
          rw [entryFilesWith, if_pos hdir, List.mem_append] at hq
          rcases hq with hq | hq
          · exact hpres q (he1 q hq)
          · exact hest q hq
    · rw [if_neg hdir] at h
      have hdirF : e.isDir = false := by simpa using hdir
      by_cases hext : s.extensions.contains (strToLower (pathExt e.name)) = false
      · rw [if_pos hext] at h
        obtain ⟨hpres, hest, hexts'⟩ := ih h hexts
        refine ⟨hpres, ?_, hexts'⟩
        intro q hq
        have hc : exts.contains (strToLower (pathExt e.name)) = false := by
          rw [← hexts]; exact hext
        rw [entryFilesWith, hdirF, if_neg (by simp), hc] at hq
        simp only [if_neg (by simp : ¬ false = true), List.nil_append] at hq
        exact hest q hq
      · rw [if_neg hext] at h
        have hc : exts.contains (strToLower (pathExt e.name)) = true := by
          rw [← hexts]; simpa using hext
        cases hproc : processAudioFile fs s dirPath e r with
        | none => simp [hproc] at h
        | some out =>
          simp only [hproc] at h
          cases out with
          | error msg =>
            obtain ⟨hpres, hest, hexts'⟩ := ih h hexts
            have hfail : procFails fs (pathJoin dirPath e.name) :=
              processAudioFile_error_shape hproc
            refine ⟨hpres, ?_, hexts'⟩
            intro q hq
            rw [entryFilesWith, hdirF, if_neg (by simp), hc, if_pos rfl] at hq
            rcases List.mem_append.mp hq with hq | hq
            · rw [List.mem_singleton.mp hq]
              exact Or.inl hfail
            · exact hest q hq
          | ok sr =>
            obtain ⟨s1, r1⟩ := sr
            obtain ⟨hpres, hest, hexts'⟩ := ih h
              (by rw [processAudioFile_exts hproc]; exact hexts)
            refine ⟨fun q hq =>
              hpres q (processAudioFile_preserves hproc q hq), ?_, hexts'⟩
            intro q hq
            rw [entryFilesWith, hdirF, if_neg (by simp), hc, if_pos rfl] at hq
            rcases List.mem_append.mp hq with hq | hq
            · rw [List.mem_singleton.mp hq]
              exact hpres _ (processAudioFile_establishes hproc)
            · exact hest q hq

theorem scanDirectory_err {fs : FS} {exts : List String} :
    ∀ (fuel : Nat) {s : Scanner} {r : ScanResult} {d : String} {msg : String},
      scanDirectory fs fuel s r d = some (.error msg) →
      walkFiles fs exts fuel d = [] := by
  intro fuel
  cases fuel with
  | zero => intro s r d msg h; exact absurd h (by simp [scanDirectory])
  | succ fuel =>
    intro s r d msg h
    rw [scanDirectory] at h
    cases hrd : fs.readDir d with
    | none => rw [walkFiles, hrd]
    | some entries =>
      simp only [hrd] at h
      cases hw : scanEntriesWith (fun s1 r1 d1 => scanDirectory fs fuel s1 r1 d1)
          fs d entries s r with
      | none => simp [hw] at h
      | some sr => obtain ⟨s1, r1⟩ := sr; simp [hw] at h

theorem scanDirectory_inv {fs : FS} {exts : List String} :
    ∀ (fuel : Nat) {s : Scanner} {r : ScanResult} {d : String} {s' : Scanner}
      {r' : ScanResult},
      scanDirectory fs fuel s r d = some (.ok (s', r')) →
      s.extensions = exts →
      (∀ q, NoopP fs s q → NoopP fs s' q) ∧
      (∀ q ∈ walkFiles fs exts fuel d, NoopP fs s' q) ∧
      s'.extensions = exts := by
  intro fuel
  induction fuel with
  | zero => intro s r d s' r' h; exact absurd h (by simp [scanDirectory])
  | succ fuel ih =>
    intro s r d s' r' h hexts
    rw [scanDirectory] at h
    cases hrd : fs.readDir d with
    | none => simp [hrd] at h
    | some entries =>
      simp only [hrd] at h
      cases hw : scanEntriesWith (fun s1 r1 d1 => scanDirectory fs fuel s1 r1 d1)
          fs d entries s r with
      | none => simp [hw] at h
      | some sr =>
        obtain ⟨s1, r1⟩ := sr
        simp only [hw, Option.some.injEq, Except.ok.injEq, Prod.mk.injEq] at h
        obtain ⟨hs, -⟩ := h
        subst hs
        have := scanEntriesWith_inv
          (fun h' hx => ih h' hx)
          (fun h' => scanDirectory_err fuel h')
          hw hexts
        refine ⟨this.1, ?_, this.2.2⟩
        rw [walkFiles, hrd]
        exact this.2.1

theorem scanRootsGo_inv {fs : FS} {exts : List String} {fuel : Nat} :
    ∀ {roots : List String} {s : Scanner} {r : ScanResult} {s' : Scanner}
      {r' : ScanResult},
      scanRootsGo fs fuel roots s r = some (s', r') →
      s.extensions = exts →
      (∀ q, NoopP fs s q → NoopP fs s' q) ∧
      (∀ q ∈ rootsFiles fs exts fuel roots, NoopP fs s' q) ∧
      s'.extensions = exts := by
  intro roots
  induction roots with
  | nil =>
    intro s r s' r' h hexts
    simp only [scanRootsGo, Option.some.injEq, Prod.mk.injEq] at h
    obtain ⟨hs, -⟩ := h
    subst hs
    exact ⟨fun q hq => hq, fun q hq => absurd hq (by simp [rootsFiles]), hexts⟩
  | cons root rest ih =>
    intro s r s' r' h hexts
    rw [scanRootsGo] at h
    cases hd : scanDirectory fs fuel s r root with
    | none => simp [hd] at h
    | some out =>
      simp only [hd] at h
      cases out with
      | error msg =>
        obtain ⟨hpres, hest, hexts'⟩ := ih h hexts
        refine ⟨hpres, ?_, hexts'⟩
        intro q hq
        rw [rootsFiles, scanDirectory_err fuel hd, List.nil_append] at hq
        exact hest q hq
      | ok sr =>
        obtain ⟨s1, r1⟩ := sr
        obtain ⟨hp1, he1, hx1⟩ := scanDirectory_inv fuel hd hexts
        obtain ⟨hpres, hest, hexts'⟩ := ih h hx1
        refine ⟨fun q hq => hpres q (hp1 q hq), ?_, hexts'⟩
        intro q hq
        rcases List.mem_append.mp (by rw [rootsFiles] at hq; exact hq) with hq | hq
        · exact hpres q (he1 q hq)
        · exact hest q hq

/-! ### Configuration (scanPaths) preservation through the walk -/

theorem processAudioFile_paths {fs : FS} {s : Scanner} {d : String}
    {e : DirEntry} {r : ScanResult} {s' : Scanner} {r' : ScanResult}
    (h : processAudioFile fs s d e r = some (.ok (s', r'))) :
    s'.scanPaths = s.scanPaths := by
  rcases processAudioFile_ok_cases h with ⟨t, -, -, hs, -⟩ |
    ⟨t, s1, -, -, hupd, hs, -⟩ | ⟨t, s1, -, hcr, hs, -⟩
  · subst hs; rfl
  · obtain ⟨info, dur, m, -, -, -, hs1⟩ := updateTrack_ok_shape hupd
    subst hs; subst hs1; rfl
  · obtain ⟨info, dur, -, -, ht, hs1⟩ := createTrack_ok_shape hcr
    subst hs; subst hs1; rfl

theorem scanEntriesWith_paths
    {sub : Scanner → ScanResult → String → Option (Except String (Scanner × ScanResult))}
    (hsub : ∀ {s r d s' r'}, sub s r d = some (.ok (s', r')) →
      s'.scanPaths = s.scanPaths)
    {fs : FS} {dirPath : String} :
    ∀ {entries : List DirEntry} {s : Scanner} {r : ScanResult} {s' : Scanner}
      {r' : ScanResult},
      scanEntriesWith sub fs dirPath entries s r = some (s', r') →
      s'.scanPaths = s.scanPaths := by
  intro entries
  induction entries with
  | nil =>
    intro s r s' r' h
    simp only [scanEntriesWith, Option.some.injEq, Prod.mk.injEq] at h
    rw [← h.1]
  | cons e es ih =>
    intro s r s' r' h
    rw [scanEntriesWith] at h
    by_cases hdir : e.isDir
    · rw [if_pos hdir] at h
      cases hrec : sub s r (pathJoin dirPath e.name) with
      | none => simp [hrec] at h
      | some out =>
        simp only [hrec] at h
        cases out with
        | error msg => exact ih h
        | ok sr =>
          obtain ⟨s1, r1⟩ := sr
          exact (ih h).trans (hsub hrec)
    · rw [if_neg hdir] at h
      by_cases hext : s.extensions.contains (strToLower (pathExt e.name)) = false
      · rw [if_pos hext] at h
        exact ih h
      · rw [if_neg hext] at h
        cases hproc : processAudioFile fs s dirPath e r with
        | none => simp [hproc] at h
        | some out =>
          simp only [hproc] at h
          cases out with
          | error msg => exact ih h
          | ok sr =>
            obtain ⟨s1, r1⟩ := sr
            exact (ih h).trans (processAudioFile_paths hproc)

theorem scanDirectory_paths {fs : FS} :
    ∀ (fuel : Nat) {s : Scanner} {r : ScanResult} {d : String} {s' : Scanner}
      {r' : ScanResult},
      scanDirectory fs fuel s r d = some (.ok (s', r')) →
      s'.scanPaths = s.scanPaths := by
  intro fuel
  induction fuel with
  | zero => intro s r d s' r' h; exact absurd h (by simp [scanDirectory])
  | succ fuel ih =>
    intro s r d s' r' h
    rw [scanDirectory] at h
    cases hrd : fs.readDir d with
    | none => simp [hrd] at h
    | some entries =>
      simp only [hrd] at h
      cases hw : scanEntriesWith (fun s1 r1 d1 => scanDirectory fs fuel s1 r1 d1)
          fs d entries s r with
      | none => simp [hw] at h
      | some sr =>
        obtain ⟨s1, r1⟩ := sr
        simp only [hw, Option.some.injEq, Except.ok.injEq, Prod.mk.injEq] at h
        obtain ⟨hs, -⟩ := h
        subst hs
        exact scanEntriesWith_paths (fun h' => ih h') hw

theorem scanRootsGo_paths {fs : FS} {fuel : Nat} :
    ∀ {roots : List String} {s : Scanner} {r : ScanResult} {s' : Scanner}
      {r' : ScanResult},
      scanRootsGo fs fuel roots s r = some (s', r') →
      s'.scanPaths = s.scanPaths := by
  intro roots
  induction roots with
  | nil =>
    intro s r s' r' h
    simp only [scanRootsGo, Option.some.injEq, Prod.mk.injEq] at h
    rw [← h.1]
  | cons root rest ih =>
    intro s r s' r' h
    rw [scanRootsGo] at h
    cases hd : scanDirectory fs fuel s r root with
    | none => simp [hd] at h
    | some out =>
      simp only [hd] at h
      cases out with
      | error msg => exact ih h
      | ok sr =>
        obtain ⟨s1, r1⟩ := sr
        exact (ih h).trans (scanDirectory_paths fuel hd)

/-! ### Fuel sufficiency is state-independent: a completed walk certifies
`walkOk`, and `walkOk` plus `NoopP` everywhere lets a second walk run
without touching the scanner or the counters -/

theorem scanEntriesWith_walkOk
    {sub : Scanner → ScanResult → String → Option (Except String (Scanner × ScanResult))}
    {wo : String → Bool}
    (hsub : ∀ {s r d out}, sub s r d = some out → wo d = true)
    {fs : FS} {dirPath : String} :
    ∀ {entries : List DirEntry} {s : Scanner} {r : ScanResult} {s' : Scanner}
      {r' : ScanResult},
      scanEntriesWith sub fs dirPath entries s r = some (s', r') →
      entriesOkWith wo dirPath entries = true := by
  intro entries
  induction entries with
  | nil => intro s r s' r' h; rfl
  | cons e es ih =>
    intro s r s' r' h
    rw [scanEntriesWith] at h
    rw [entriesOkWith, Bool.and_eq_true]
    by_cases hdir : e.isDir
    · rw [if_pos hdir] at h
      cases hrec : sub s r (pathJoin dirPath e.name) with
      | none => simp [hrec] at h
      | some out =>
        simp only [hrec] at h
        refine ⟨by rw [if_pos hdir]; exact hsub hrec, ?_⟩
        cases out with
        | error msg => exact ih h
        | ok sr => obtain ⟨s1, r1⟩ := sr; exact ih h
    · rw [if_neg hdir] at h
      refine ⟨by rw [if_neg hdir], ?_⟩
      by_cases hext : s.extensions.contains (strToLower (pathExt e.name)) = false
      · rw [if_pos hext] at h
        exact ih h
      · rw [if_neg hext] at h
        cases hproc : processAudioFile fs s dirPath e r with
        | none => simp [hproc] at h
        | some out =>
          simp only [hproc] at h
          cases out with
          | error msg => exact ih h
          | ok sr => obtain ⟨s1, r1⟩ := sr; exact ih h

theorem scanDirectory_walkOk {fs : FS} :
    ∀ (fuel : Nat) {s : Scanner} {r : ScanResult} {d : String}
      {out : Except String (Scanner × ScanResult)},
      scanDirectory fs fuel s r d = some out → walkOk fs fuel d = true := by
  intro fuel
  induction fuel with
  | zero => intro s r d out h; exact absurd h (by simp [scanDirectory])
  | succ fuel ih =>
    intro s r d out h
    rw [scanDirectory] at h
    cases hrd : fs.readDir d with
    | none => rw [walkOk, hrd]
    | some entries =>
      simp only [hrd] at h
      rw [walkOk, hrd]
      cases hw : scanEntriesWith (fun s1 r1 d1 => scanDirectory fs fuel s1 r1 d1)
          fs d entries s r with
      | none => simp [hw] at h
      | some sr =>
        obtain ⟨s1, r1⟩ := sr
        exact scanEntriesWith_walkOk (fun h' => ih h') hw

theorem scanRootsGo_walkOk {fs : FS} {fuel : Nat} :
    ∀ {roots : List String} {s : Scanner} {r : ScanResult} {s' : Scanner}
      {r' : ScanResult},
      scanRootsGo fs fuel roots s r = some (s', r') →
      ∀ root ∈ roots, walkOk fs fuel root = true := by
  intro roots
  induction roots with
  | nil => intro s r s' r' h root hroot; exact absurd hroot (by simp)
  | cons root rest ih =>
    intro s r s' r' h root2 hroot2
    rw [scanRootsGo] at h
    cases hd : scanDirectory fs fuel s r root with
    | none => simp [hd] at h
    | some out =>
      simp only [hd] at h
      rcases List.mem_cons.mp hroot2 with hr2 | hr2
      · subst hr2
        exact scanDirectory_walkOk fuel hd
      · cases out with
        | error msg => exact ih h root2 hr2
        | ok sr => obtain ⟨s1, r1⟩ := sr; exact ih h root2 hr2

/-- Counter projections that a no-op second walk leaves unchanged. -/
def countsOf (r : ScanResult) : Nat × Nat × Nat :=
  (r.newTracks, r.updatedTracks, r.removedTracks)

theorem countsOf_errors (r : ScanResult) (es2 : List String) :
    countsOf { r with errors := es2 } = countsOf r := rfl

theorem scanEntriesWith_noop_run
    (sub : Scanner → ScanResult → String → Option (Except String (Scanner × ScanResult)))
    (wo : String → Bool) {wf : String → List String}
    {fs : FS} {exts : List String} {s : Scanner}
    (hsub : ∀ {r d}, wo d = true → (∀ q ∈ wf d, NoopP fs s q) →
      (∃ msg, sub s r d = some (.error msg)) ∨
      (∃ r2, sub s r d = some (.ok (s, r2)) ∧ countsOf r2 = countsOf r))
    (hexts : s.extensions = exts)
    {dirPath : String} :
    ∀ (entries : List DirEntry) (r : ScanResult),
      entriesOkWith wo dirPath entries = true →
      (∀ q ∈ entryFilesWith wf exts dirPath entries, NoopP fs s q) →
      ∃ r', scanEntriesWith sub fs dirPath entries s r = some (s, r') ∧
        countsOf r' = countsOf r := by
  intro entries
  induction entries with
  | nil => intro r hok hq; exact ⟨r, rfl, rfl⟩
  | cons e es ih =>
    intro r hok hq
    rw [entriesOkWith, Bool.and_eq_true] at hok
    by_cases hdir : e.isDir
    · have hwo : wo (pathJoin dirPath e.name) = true := by
        have := hok.1
        rwa [if_pos hdir] at this
      have hqsub : ∀ q ∈ wf (pathJoin dirPath e.name), NoopP fs s q := by
        intro q hq2
        refine hq q ?_
        rw [entryFilesWith, if_pos hdir, List.mem_append]
        exact Or.inl hq2
      have hqres : ∀ q ∈ entryFilesWith wf exts dirPath es, NoopP fs s q := by
        intro q hq2
        refine hq q ?_
        rw [entryFilesWith, if_pos hdir, List.mem_append]
        exact Or.inr hq2
      rcases hsub (r := r) hwo hqsub with ⟨msg, hrec⟩ | ⟨r2, hrec, hcnt⟩
      · obtain ⟨r', heq, hcnt'⟩ := ih ({ r with errors := r.errors ++
          ["Failed to scan subdirectory " ++ pathJoin dirPath e.name ++ ": " ++ msg] })
          hok.2 hqres
        refine ⟨r', ?_, hcnt'.trans (countsOf_errors r _)⟩
        rw [scanEntriesWith, if_pos hdir, hrec]
        exact heq
      · obtain ⟨r', heq, hcnt'⟩ := ih r2 hok.2 hqres
        refine ⟨r', ?_, hcnt'.trans hcnt⟩
        rw [scanEntriesWith, if_pos hdir, hrec]
        exact heq
    · have hdirF : e.isDir = false := by simpa using hdir
      by_cases hext : s.extensions.contains (strToLower (pathExt e.name)) = false
      · have hqres : ∀ q ∈ entryFilesWith wf exts dirPath es, NoopP fs s q := by
          intro q hq2
          refine hq q ?_
          have hc : exts.contains (strToLower (pathExt e.name)) = false := by
            rw [← hexts]; exact hext
          rw [entryFilesWith, hdirF, if_neg (by simp), hc]
          simp only [if_neg (by simp : ¬ false = true), List.nil_append]
          exact hq2
        obtain ⟨r', heq, hcnt'⟩ := ih r hok.2 hqres
        refine ⟨r', ?_, hcnt'⟩
        rw [scanEntriesWith, if_neg hdir, if_pos hext]
        exact heq
      · have hc : exts.contains (strToLower (pathExt e.name)) = true := by
          rw [← hexts]; simpa using hext
        have hqfile : NoopP fs s (pathJoin dirPath e.name) := by
          refine hq _ ?_
          rw [entryFilesWith, hdirF, if_neg (by simp), hc, if_pos rfl,
            List.mem_append]
          exact Or.inl (List.mem_singleton.mpr rfl)
        have hqres : ∀ q ∈ entryFilesWith wf exts dirPath es, NoopP fs s q := by
          intro q hq2
          refine hq q ?_
          rw [entryFilesWith, hdirF, if_neg (by simp), hc, if_pos rfl,
            List.mem_append]
          exact Or.inr hq2
        rcases processAudioFile_noop (r := r) hqfile with hproc | ⟨msg, hproc⟩
        · obtain ⟨r', heq, hcnt'⟩ := ih r hok.2 hqres
          refine ⟨r', ?_, hcnt'⟩
          rw [scanEntriesWith, if_neg hdir, if_neg hext, hproc]
          exact heq
        · obtain ⟨r', heq, hcnt'⟩ := ih ({ r with errors := r.errors ++
            ["Failed to process " ++ e.name ++ ": " ++ msg] }) hok.2 hqres
          refine ⟨r', ?_, hcnt'.trans (countsOf_errors r _)⟩
          rw [scanEntriesWith, if_neg hdir, if_neg hext, hproc]
          exact heq

theorem scanDirectory_noop_run {fs : FS} {exts : List String} {s : Scanner}
    (hexts : s.extensions = exts) :
    ∀ (fuel : Nat) (r : ScanResult) (d : String),
      walkOk fs fuel d = true →
      (∀ q ∈ walkFiles fs exts fuel d, NoopP fs s q) →
      (∃ msg, scanDirectory fs fuel s r d = some (.error msg)) ∨
      (∃ r', scanDirectory fs fuel s r d = some (.ok (s, r')) ∧
        countsOf r' = countsOf r) := by
  intro fuel
  induction fuel with
  | zero => intro r d hok; exact absurd hok (by simp [walkOk])
  | succ fuel ih =>
    intro r d hok hq
    rw [walkOk] at hok
    cases hrd : fs.readDir d with
    | none =>
      refine Or.inl ⟨"failed to read directory " ++ d, ?_⟩
      simp only [scanDirectory, hrd]
    | some entries =>
      rw [hrd] at hok
      rw [walkFiles, hrd] at hq
      obtain ⟨r', heq, hcnt⟩ := scanEntriesWith_noop_run
        (fun s1 r1 d1 => scanDirectory fs fuel s1 r1 d1)
        (fun d1 => walkOk fs fuel d1)
        (fun hwo hqs => ih _ _ hwo hqs) hexts entries r hok hq
      refine Or.inr ⟨r', ?_, hcnt⟩
      simp only [scanDirectory, hrd, heq]

theorem scanRootsGo_noop_run {fs : FS} {exts : List String} {fuel : Nat}
    {s : Scanner} (hexts : s.extensions = exts) :
    ∀ (roots : List String) (r : ScanResult),
      (∀ root ∈ roots, walkOk fs fuel root = true) →
      (∀ q ∈ rootsFiles fs exts fuel roots, NoopP fs s q) →
      ∃ r', scanRootsGo fs fuel roots s r = some (s, r') ∧
        countsOf r' = countsOf r := by
  intro roots
  induction roots with
  | nil => intro r hok hq; exact ⟨r, rfl, rfl⟩
  | cons root rest ih =>
    intro r hok hq
    have hq1 : ∀ q ∈ walkFiles fs exts fuel root, NoopP fs s q := by
      intro q hq2
      refine hq q ?_
      rw [rootsFiles, List.mem_append]
      exact Or.inl hq2
    have hq2 : ∀ q ∈ rootsFiles fs exts fuel rest, NoopP fs s q := by
      intro q hq3
      refine hq q ?_
      rw [rootsFiles, List.mem_append]
      exact Or.inr hq3
    rcases scanDirectory_noop_run hexts fuel r root
        (hok root (List.mem_cons_self _ _)) hq1 with ⟨msg, hd⟩ | ⟨r2, hd, hcnt⟩
    · obtain ⟨r', heq, hcnt'⟩ := ih ({ r with errors := r.errors ++
        ["Failed to scan " ++ root ++ ": " ++ msg] })
        (fun rt hrt => hok rt (List.mem_cons_of_mem _ hrt)) hq2
      refine ⟨r', ?_, hcnt'.trans (countsOf_errors r _)⟩
      rw [scanRootsGo, hd]
      exact heq
    · obtain ⟨r', heq, hcnt'⟩ := ih r2
        (fun rt hrt => hok rt (List.mem_cons_of_mem _ hrt)) hq2
      refine ⟨r', ?_, hcnt'.trans hcnt⟩
      rw [scanRootsGo, hd]
      exact heq

/-! ### Eviction lemmas for C7: when nothing was deleted, eviction is the
identity, and it preserves `NoopP` in general -/

theorem removeDeletedGo_id {fs : FS} :
    ∀ {ts : List Track} (hashes : List (String × String)) (n : Nat),
      (∀ t ∈ ts, (fs.stat t.path).isSome = true) →
      removeDeletedGo fs ts hashes n = (ts, hashes, n) := by
  intro ts
  induction ts with
  | nil => intro hashes n h; rfl
  | cons t ts ih =>
    intro hashes n h
    rw [removeDeletedGo]
    have hst : (fs.stat t.path).isNone = false := by
      cases hstat : fs.stat t.path with
      | none =>
        have := h t (List.mem_cons_self _ _)
        rw [hstat] at this
        exact absurd this (by simp)
      | some _ => rfl
    rw [if_neg (by simp [hst]), ih hashes n (fun u hu => h u (List.mem_cons_of_mem _ hu))]

theorem removeDeletedGo_out_stat {fs : FS} :
    ∀ {ts : List Track} (hashes : List (String × String)) (n : Nat),
      ∀ t ∈ (removeDeletedGo fs ts hashes n).1, (fs.stat t.path).isSome = true := by
  intro ts
  induction ts with
  | nil => intro hashes n t ht; exact absurd ht (by simp [removeDeletedGo])
  | cons u ts ih =>
    intro hashes n t ht
    rw [removeDeletedGo] at ht
    by_cases hst : (fs.stat u.path).isNone
    · rw [if_pos hst] at ht
      exact ih _ _ t ht
    · rw [if_neg hst] at ht
      have hu : (fs.stat u.path).isSome = true := by
        cases hstat : fs.stat u.path with
        | none => rw [hstat] at hst; exact absurd rfl hst
        | some _ => rfl
      rcases List.mem_cons.mp ht with h1 | h1
      · rw [h1]; exact hu
      · exact ih _ _ t h1

theorem removeDeletedGo_find_kept {fs : FS} {q : String}
    (hq : (fs.stat q).isSome = true) :
    ∀ {ts : List Track} (hashes : List (String × String)) (n : Nat),
      (ts.find? (fun u => u.path == q)).isSome = true →
      ((removeDeletedGo fs ts hashes n).1.find? (fun u => u.path == q)).isSome = true := by
  intro ts
  induction ts with
  | nil => intro hashes n h; exact absurd h (by simp [List.find?])
  | cons t ts ih =>
    intro hashes n h
    rw [removeDeletedGo]
    by_cases hst : (fs.stat t.path).isNone
    · rw [if_pos hst]
      have hne : ¬ t.path = q := by
        intro e
        cases hstat : fs.stat q with
        | none => rw [hstat] at hq; exact absurd hq (by simp)
        | some _ => rw [e, hstat] at hst; exact absurd hst (by simp)
      have h' : (ts.find? (fun u => u.path == q)).isSome = true := by
        rw [List.find?_cons_of_neg _ (by simpa using hne)] at h
        exact h
      exact ih _ _ h'
    · by_cases hpt : t.path = q
      · rw [if_neg hst]
        show ((t :: (removeDeletedGo fs ts hashes n).1).find?
          (fun u => u.path == q)).isSome = true
        rw [List.find?_cons_of_pos _ (by simpa using hpt)]
        rfl
      · rw [if_neg hst]
        show ((t :: (removeDeletedGo fs ts hashes n).1).find?
          (fun u => u.path == q)).isSome = true
        rw [List.find?_cons_of_neg _ (by simpa using hpt)]
        have h' : (ts.find? (fun u => u.path == q)).isSome = true := by
          rw [List.find?_cons_of_neg _ (by simpa using hpt)] at h
          exact h
        exact ih _ _ h'

theorem removeDeletedGo_hash_kept {fs : FS} {q : String}
    (hq : (fs.stat q).isSome = true) :
    ∀ {ts : List Track} (hashes : List (String × String)) (n : Nat),
      mapGet (removeDeletedGo fs ts hashes n).2.1 q = mapGet hashes q := by
  intro ts
  induction ts with
  | nil => intro hashes n; rfl
  | cons t ts ih =>
    intro hashes n
    rw [removeDeletedGo]
    by_cases hst : (fs.stat t.path).isNone
    · rw [if_pos hst]
      have hne : ¬ t.path = q := by
        intro e
        cases hstat : fs.stat q with
        | none => rw [hstat] at hq; exact absurd hq (by simp)
        | some _ => rw [e, hstat] at hst; exact absurd hst (by simp)
      exact (ih (mapDelete hashes t.path) (n + 1)).trans
        (mapGet_delete_ne _ _ _ (fun e => hne e.symm))
    · rw [if_neg hst]
      exact ih hashes n

theorem NoopP_remove {fs : FS} {s : Scanner} {r : ScanResult} {q : String}
    (h : NoopP fs s q) : NoopP fs (removeDeletedTracks fs s r).1 q := by
  rcases h with hpf | ⟨hsome, hch⟩
  · exact Or.inl hpf
  · cases hstat : fs.stat q with
    | none => exact Or.inl (Or.inl hstat)
    | some fi =>
      have hq : (fs.stat q).isSome = true := by rw [hstat]; rfl
      refine Or.inr ⟨?_, ?_⟩
      · exact removeDeletedGo_find_kept hq s.fileHashes 0 hsome
      · have hmg : mapGet (removeDeletedTracks fs s r).1.fileHashes q
            = mapGet s.fileHashes q :=
          removeDeletedGo_hash_kept hq s.fileHashes 0
        rw [hasFileChanged_congr hmg]
        exact hch

/-- Unfolding `scan` once the cache load and the walk result are known. -/
theorem scan_eq_of_roots {fs : FS} {fuel : Nat} {now : Int} {s0 : Scanner}
    {c0 : CacheState} {sIn s' : Scanner} {r' : ScanResult}
    (hload : loadCache c0 s0 = (sIn, none))
    (hroots : scanRootsGo fs fuel sIn.scanPaths sIn (scanInitResult now none)
      = some (s', r')) :
    scan fs fuel now s0 c0 = some ((removeDeletedTracks fs s' r').1,
      saveCache now (removeDeletedTracks fs s' r').1,
      { (removeDeletedTracks fs s' r').2 with
          tracks := (removeDeletedTracks fs s' r').1.tracks
          totalFiles := (removeDeletedTracks fs s' r').1.tracks.length
          scanTime := now }) := by
  simp only [scan, hload, hroots]

/-! ### C7 -/

/-- C7: a completed `Scan` followed by another `Scan` over the same
(unchanged) filesystem reports zero new, zero updated and zero removed
tracks on the second run — and the second run completes. -/
theorem C7_rescan_unchanged_zero (fs : FS) (fuel : Nat) (now1 now2 : Int)
    (s0 : Scanner) (c0 : CacheState) (s1 : Scanner) (c1 : CacheState)
    (r1 : ScanResult) (h : scan fs fuel now1 s0 c0 = some (s1, c1, r1)) :
    ∃ s2 c2 r2, scan fs fuel now2 s1 c1 = some (s2, c2, r2) ∧
      r2.newTracks = 0 ∧ r2.updatedTracks = 0 ∧ r2.removedTracks = 0 := by
  simp only [scan] at h
  cases hroots : scanRootsGo fs fuel (loadCache c0 s0).1.scanPaths (loadCache c0 s0).1
      (scanInitResult now1 (loadCache c0 s0).2) with
  | none => rw [hroots] at h; exact absurd h (by simp)
  | some sr =>
    obtain ⟨sW, rW⟩ := sr
    simp only [hroots, Option.some.injEq, Prod.mk.injEq] at h
    obtain ⟨hs1, hc1, hr1⟩ := h
    subst hs1
    subst hc1
    subst hr1
    have hwalkok : ∀ root ∈ (loadCache c0 s0).1.scanPaths, walkOk fs fuel root = true :=
      scanRootsGo_walkOk hroots
    have hinv := scanRootsGo_inv hroots (rfl :
      (loadCache c0 s0).1.extensions = (loadCache c0 s0).1.extensions)
    have hpaths : sW.scanPaths = (loadCache c0 s0).1.scanPaths :=
      scanRootsGo_paths hroots
    -- the catalog scan 1 leaves behind
    have hnoopR : ∀ q ∈ rootsFiles fs (loadCache c0 s0).1.extensions fuel
        (loadCache c0 s0).1.scanPaths,
        NoopP fs (removeDeletedTracks fs sW rW).1 q :=
      fun q hq => NoopP_remove (hinv.2.1 q hq)
    have hstatR : ∀ t ∈ (removeDeletedTracks fs sW rW).1.tracks,
        (fs.stat t.path).isSome = true :=
      fun t ht => removeDeletedGo_out_stat sW.fileHashes 0 t ht
    -- scan 2 starts from the reloaded (metadata-stripped) catalog
    have hl : loadCache (saveCache now1 (removeDeletedTracks fs sW rW).1)
        (removeDeletedTracks fs sW rW).1 =
      ({ (removeDeletedTracks fs sW rW).1 with
          tracks := (removeDeletedTracks fs sW rW).1.tracks.map stripMetadataT
          fileHashes := (removeDeletedTracks fs sW rW).1.fileHashes
          lastScan := now1 }, none) := rfl
    have hsLexts : ({ (removeDeletedTracks fs sW rW).1 with
        tracks := (removeDeletedTracks fs sW rW).1.tracks.map stripMetadataT
        fileHashes := (removeDeletedTracks fs sW rW).1.fileHashes
        lastScan := now1 } : Scanner).extensions
          = (loadCache c0 s0).1.extensions := hinv.2.2
    have hsLpaths : ({ (removeDeletedTracks fs sW rW).1 with
        tracks := (removeDeletedTracks fs sW rW).1.tracks.map stripMetadataT
        fileHashes := (removeDeletedTracks fs sW rW).1.fileHashes
        lastScan := now1 } : Scanner).scanPaths
          = (loadCache c0 s0).1.scanPaths := hpaths
    have hnoopL : ∀ q ∈ rootsFiles fs (loadCache c0 s0).1.extensions fuel
        (loadCache c0 s0).1.scanPaths,
        NoopP fs { (removeDeletedTracks fs sW rW).1 with
          tracks := (removeDeletedTracks fs sW rW).1.tracks.map stripMetadataT
          fileHashes := (removeDeletedTracks fs sW rW).1.fileHashes
          lastScan := now1 } q := by
      intro q hq
      exact NoopP_congr (s := (removeDeletedTracks fs sW rW).1)
        (findTrack_map_strip (removeDeletedTracks fs sW rW).1.tracks q) rfl
        (hnoopR q hq)
    have hstatL : ∀ t ∈ ({ (removeDeletedTracks fs sW rW).1 with
        tracks := (removeDeletedTracks fs sW rW).1.tracks.map stripMetadataT
        fileHashes := (removeDeletedTracks fs sW rW).1.fileHashes
        lastScan := now1 } : Scanner).tracks, (fs.stat t.path).isSome = true := by
      intro t ht
      obtain ⟨u, hu, hut⟩ := List.mem_map.mp ht
      rw [← hut]
      exact hstatR u hu
    have hok2 : ∀ root ∈ ({ (removeDeletedTracks fs sW rW).1 with
        tracks := (removeDeletedTracks fs sW rW).1.tracks.map stripMetadataT
        fileHashes := (removeDeletedTracks fs sW rW).1.fileHashes
        lastScan := now1 } : Scanner).scanPaths, walkOk fs fuel root = true := by
      rw [hsLpaths]
      exact hwalkok
    have hnq2 : ∀ q ∈ rootsFiles fs (loadCache c0 s0).1.extensions fuel
        ({ (removeDeletedTracks fs sW rW).1 with
          tracks := (removeDeletedTracks fs sW rW).1.tracks.map stripMetadataT
          fileHashes := (removeDeletedTracks fs sW rW).1.fileHashes
          lastScan := now1 } : Scanner).scanPaths,
        NoopP fs { (removeDeletedTracks fs sW rW).1 with
          tracks := (removeDeletedTracks fs sW rW).1.tracks.map stripMetadataT
          fileHashes := (removeDeletedTracks fs sW rW).1.fileHashes
          lastScan := now1 } q := by
      rw [hsLpaths]
      exact hnoopL
    obtain ⟨r2W, hrun2, hcnt2⟩ := scanRootsGo_noop_run hsLexts _
      (scanInitResult now2 none) hok2 hnq2
    refine ⟨_, _, _, scan_eq_of_roots hl hrun2, ?_, ?_, ?_⟩
    · exact congrArg (fun x => x.1) hcnt2
    · exact congrArg (fun x => x.2.1) hcnt2
    · have h0 : r2W.removedTracks = 0 := congrArg (fun x => x.2.2) hcnt2
      have hid2 := removeDeletedGo_id
        ({ (removeDeletedTracks fs sW rW).1 with
          tracks := (removeDeletedTracks fs sW rW).1.tracks.map stripMetadataT
          fileHashes := (removeDeletedTracks fs sW rW).1.fileHashes
          lastScan := now1 } : Scanner).fileHashes 0 hstatL
      exact (by rw [hid2, h0]; rfl :
        r2W.removedTracks + (removeDeletedGo fs
          ({ (removeDeletedTracks fs sW rW).1 with
            tracks := (removeDeletedTracks fs sW rW).1.tracks.map stripMetadataT
            fileHashes := (removeDeletedTracks fs sW rW).1.fileHashes
            lastScan := now1 } : Scanner).tracks
          ({ (removeDeletedTracks fs sW rW).1 with
            tracks := (removeDeletedTracks fs sW rW).1.tracks.map stripMetadataT
            fileHashes := (removeDeletedTracks fs sW rW).1.fileHashes
            lastScan := now1 } : Scanner).fileHashes 0).2.2 = 0)

/-- Witness for C7 on the deletion fixture: after the first scan evicted the
stale track, a second scan reports all-zero change counters. -/
theorem C7_rescan_unchanged_zero_witness :
    ∃ s2 c2 r2, scan fsD 1 0 s1D c1D = some (s2, c2, r2) ∧
      r2.newTracks = 0 ∧ r2.updatedTracks = 0 ∧ r2.removedTracks = 0 :=
  C7_rescan_unchanged_zero fsD 1 0 0 sD cD s1D c1D r1D rfl

/-! ### C10 -/

/-- C10: on its cheap path (cache loads, no cached hash changed),
`IncrementalScan` only reads the top level of each root: `scanForNewFiles`
skips directory entries instead of entering them.  On the fixture tree
`assets/sub/new.mp3`, the incremental scan reports zero new tracks and the
file stays unknown, while a full `Scan` of the same tree recurses, creates
the track, and reports it as new. -/
theorem C10_incremental_skips_subdirectories :
    (incrementalScan fsT 2 0 sT cT).map
        (fun out => (out.2.2.newTracks, findTrackByPath out.1 ("assets/sub/new.mp3"))) =
      some (0, none) ∧
    (scan fsT 2 0 sT cT).map
        (fun out =>
          (out.2.2.newTracks,
           (findTrackByPath out.1 ("assets/sub/new.mp3")).map (fun t => t.path))) =
      some (1, some ("assets/sub/new.mp3")) := by
  exact ⟨rfl, rfl⟩

end Perth
